import Mathlib

/-!
Verification development for the SVG → react-native-svg converter
(`svgToReactNative` in its three source variants: the generic component
emitter of `App.jsx` part 1, the snippet emitter of `App.jsx` part 2, and
the themed component emitter of `part_001`).

The JavaScript regex chains are embedded as executable functions over
`List Char`.  Each `replace(/.../g, ...)` call becomes a left-to-right scan
(`scanRepl`) driven by a hand-written matcher that implements exactly that
regex's matching semantics at one start position (including greedy/lazy
quantifier behaviour and the relevant backtracking).
-/

namespace Svg2RN

/-- Characters matched by the JavaScript regex metacharacter `.`
(everything except the four line terminators). -/
def jsDot (c : Char) : Bool :=
  !(c = '\n' || c = '\r' || c = Char.ofNat 0x2028 || c = Char.ofNat 0x2029)

/-- Characters matched by `(.|\n)` in the source regexes. -/
def jsDotNl (c : Char) : Bool := jsDot c || c = '\n'

/-- The JavaScript `\s` character class (also the set used by `String.prototype.trim`). -/
def jsSpace (c : Char) : Bool :=
  c = ' ' || c = '\t' || c = '\n' || c = '\r' || c = '\x0b' || c = '\x0c' ||
  c = Char.ofNat 0xa0 || c = Char.ofNat 0x1680 ||
  (0x2000 ≤ c.toNat && c.toNat ≤ 0x200a) ||
  c = Char.ofNat 0x2028 || c = Char.ofNat 0x2029 || c = Char.ofNat 0x202f ||
  c = Char.ofNat 0x205f || c = Char.ofNat 0x3000 || c = Char.ofNat 0xfeff

/-- `[a-z]`. -/
def asciiLower (c : Char) : Bool := 'a' ≤ c && c ≤ 'z'

/-- `[A-Z]`. -/
def asciiUpper (c : Char) : Bool := 'A' ≤ c && c ≤ 'Z'

/-- `[a-zA-Z]`. -/
def asciiAlpha (c : Char) : Bool := asciiLower c || asciiUpper c

/-- `[0-9]`. -/
def asciiDigit (c : Char) : Bool := '0' ≤ c && c ≤ '9'

/-- `[a-zA-Z0-9]`. -/
def alnum (c : Char) : Bool := asciiAlpha c || asciiDigit c

/-- Remove the literal pattern `pat` from the front of `l` (case-sensitive);
returns the remainder on success. -/
def stripPre : List Char → List Char → Option (List Char)
  | [], l => some l
  | _ :: _, [] => none
  | p :: ps, c :: cs => if c = p then stripPre ps cs else none

/-- Case-insensitive variant of `stripPre` (regex `i` flag). -/
def stripPreCI : List Char → List Char → Option (List Char)
  | [], l => some l
  | _ :: _, [] => none
  | p :: ps, c :: cs => if c.toLower = p.toLower then stripPreCI ps cs else none

/-- Expect a single character at the front. -/
def expectChar (c : Char) : List Char → Option (List Char)
  | x :: xs => if x = c then some xs else none
  | [] => none

/-- Lazy quantification `allowed*?` followed by `stop`: at each point the stop
pattern is tried first; on success returns the consumed run and the remainder
after the stop pattern.  This is the JavaScript semantics of a lazy group that
may only contain `allowed` characters, followed by a literal tail. -/
def lazyUpto (stop : List Char → Option (List Char)) (allowed : Char → Bool) :
    List Char → Option (List Char × List Char)
  | [] =>
    match stop [] with
    | some r => some ([], r)
    | none => none
  | c :: cs =>
    match stop (c :: cs) with
    | some r => some ([], r)
    | none =>
      if allowed c then (lazyUpto stop allowed cs).map (fun p => (c :: p.1, p.2)) else none

/-- One pass of `String.prototype.replace` with a global regex, scanning left to
right: `f` is the matcher at one start position, returning the replacement text
and the remainder after the match.  The fuel argument (always started at the
input length, enough because every source pattern consumes at least one
character per match) keeps the recursion structural. -/
def scanReplF (f : List Char → Option (List Char × List Char)) :
    Nat → List Char → List Char
  | _, [] => []
  | 0, l => l
  | fuel + 1, c :: cs =>
    match f (c :: cs) with
    | some (r, rest) => r ++ scanReplF f fuel rest
    | none => c :: scanReplF f fuel cs

/-- `String.prototype.replace` with a global regex. -/
def scanRepl (f : List Char → Option (List Char × List Char)) (l : List Char) :
    List Char :=
  scanReplF f l.length l

/-- `String.prototype.replace` with a non-global regex: only the first match is
replaced. -/
def scanReplOnce (f : List Char → Option (List Char × List Char)) :
    List Char → List Char
  | [] => []
  | c :: cs =>
    match f (c :: cs) with
    | some (r, rest) => r ++ rest
    | none => c :: scanReplOnce f cs

/-- JavaScript `String.prototype.trim`. -/
def jsTrim (l : List Char) : List Char :=
  (((l.dropWhile jsSpace).reverse).dropWhile jsSpace).reverse

/-- Uppercase the first character: `s.charAt(0).toUpperCase() + s.slice(1)`. -/
def upperFirst : List Char → List Char
  | [] => []
  | c :: cs => c.toUpper :: cs

/-- JavaScript `s.split("\n")`. -/
def splitNl : List Char → List (List Char)
  | [] => [[]]
  | c :: cs =>
    match splitNl cs with
    | [] => [[]]
    | line :: rest => if c = '\n' then [] :: line :: rest else (c :: line) :: rest

/-- Join with newlines (JavaScript `lines.join("\n")`). -/
def joinWithNl : List (List Char) → List Char
  | [] => []
  | [x] => x
  | x :: y :: xs => x ++ '\n' :: joinWithNl (y :: xs)

/-! ### Matchers for the individual regexes of the source -/

/-- `/<\?xml(.|\n)*?\?>/g` (App.jsx variant 1, line 12): delete an XML declaration. -/
def mXmlV1 (l : List Char) : Option (List Char × List Char) := do
  let r ← stripPre "<?xml".data l
  let (_, rest) ← lazyUpto (stripPre "?>".data) jsDotNl r
  some ([], rest)

/-- `/<!--(.|\n)*?-->/g` (App.jsx variant 1, line 14): delete a comment. -/
def mCommentV1 (l : List Char) : Option (List Char × List Char) := do
  let r ← stripPre "<!--".data l
  let (_, rest) ← lazyUpto (stripPre "-->".data) jsDotNl r
  some ([], rest)

/-- `/<!DOCTYPE(.|\n)*?>/gi` (App.jsx variant 1, line 16): delete a DOCTYPE. -/
def mDoctypeV1 (l : List Char) : Option (List Char × List Char) := do
  let r ← stripPreCI "<!DOCTYPE".data l
  let (_, rest) ← lazyUpto (stripPre ">".data) jsDotNl r
  some ([], rest)

/-- `/xmlns:xlink="[^"]*"/g` (App.jsx variant 1, line 18). -/
def mXlinkV1 (l : List Char) : Option (List Char × List Char) := do
  let r ← stripPre "xmlns:xlink=\"".data l
  let rest ← expectChar '"' (r.dropWhile (fun c => !(c = '"')))
  some ([], rest)

/-- `/(width|height)="[^"]*"/g` (App.jsx variant 1 line 20; part_001 line 27;
App.jsx variant 2 line 267): delete a width or height attribute. -/
def mWHRm (l : List Char) : Option (List Char × List Char) := do
  let r ← (stripPre "width".data l <|> stripPre "height".data l)
  let r1 ← stripPre "=\"".data r
  let rest ← expectChar '"' (r1.dropWhile (fun c => !(c = '"')))
  some ([], rest)

/-- `/([a-zA-Z0-9]+)-([a-zA-Z0-9]+)=/g` with replacement
``${a}${b.charAt(0).toUpperCase()}${b.slice(1)}=`` (App.jsx variant 1 line 22;
part_001 lines 31–36 and 52–54; App.jsx variant 2 lines 280–285, 301–303):
camel-case one hyphenated pair directly before `=`. -/
def mCamel (l : List Char) : Option (List Char × List Char) :=
  let a := l.takeWhile alnum
  if a.isEmpty then none else
  match expectChar '-' (l.dropWhile alnum) with
  | none => none
  | some r1 =>
    let b := r1.takeWhile alnum
    if b.isEmpty then none else
    match expectChar '=' (r1.dropWhile alnum) with
    | none => none
    | some rest => some (a ++ upperFirst b ++ ['='], rest)

/-- `/class=/g` → `className=` (App.jsx variant 1 line 24; part_001 line 50;
App.jsx variant 2 line 299). -/
def mClassEq (l : List Char) : Option (List Char × List Char) := do
  let rest ← stripPre "class=".data l
  some ("className=".data, rest)

/-- `/<svg([^>]*)>/` → `<Svg$1>` (App.jsx variant 1 line 26, non-global). -/
def mSvgOpenV1 (l : List Char) : Option (List Char × List Char) := do
  let r ← stripPre "<svg".data l
  let attrs := r.takeWhile (fun c => !(c = '>'))
  let rest ← expectChar '>' (r.dropWhile (fun c => !(c = '>')))
  some ("<Svg".data ++ attrs ++ ['>'], rest)

/-- `/<\/svg>/` → `</Svg>` (App.jsx variant 1 line 27, non-global). -/
def mSvgCloseV1 (l : List Char) : Option (List Char × List Char) := do
  let rest ← stripPre "</svg>".data l
  some ("</Svg>".data, rest)

/-- `/<([a-z]+)/g` with the capitalizing callback (App.jsx variant 1 lines 28–31,
case-sensitive: only lowercase runs match). -/
def mOpenCapV1 (l : List Char) : Option (List Char × List Char) := do
  let r ← expectChar '<' l
  let t := r.takeWhile asciiLower
  if t.isEmpty then none else
  some ((if t = "svg".data then "<Svg".data else '<' :: upperFirst t),
    r.dropWhile asciiLower)

/-- `/<\/([a-z]+)/g` with the capitalizing callback (App.jsx variant 1 lines 32–35). -/
def mCloseCapV1 (l : List Char) : Option (List Char × List Char) := do
  let r ← stripPre "</".data l
  let t := r.takeWhile asciiLower
  if t.isEmpty then none else
  some ((if t = "svg".data then "</Svg".data
         else '<' :: '/' :: upperFirst t),
    r.dropWhile asciiLower)

/-- `/<([a-z]+)/gi` with the capitalizing callback (part_001 lines 41–44;
App.jsx variant 2 lines 290–293; the `i` flag lets the run contain capitals,
while the callback's comparison with `"svg"` stays case-sensitive). -/
def mOpenCapCI (l : List Char) : Option (List Char × List Char) := do
  let r ← expectChar '<' l
  let t := r.takeWhile asciiAlpha
  if t.isEmpty then none else
  some ((if t = "svg".data then "<Svg".data else '<' :: upperFirst t),
    r.dropWhile asciiAlpha)

/-- `/<\/([a-z]+)/gi` with the capitalizing callback (part_001 lines 45–48;
App.jsx variant 2 lines 294–297). -/
def mCloseCapCI (l : List Char) : Option (List Char × List Char) := do
  let r ← stripPre "</".data l
  let t := r.takeWhile asciiAlpha
  if t.isEmpty then none else
  some ((if t = "svg".data then "</Svg".data
         else '<' :: '/' :: upperFirst t),
    r.dropWhile asciiAlpha)

/-- `/<style[^>]*>[\s\S]*?<\/style>/gi` (App.jsx variant 1 line 43; part_001
line 56; App.jsx variant 2 line 305): delete a style block. -/
def mStyleRm (l : List Char) : Option (List Char × List Char) := do
  let r ← stripPreCI "<style".data l
  let r1 ← expectChar '>' (r.dropWhile (fun c => !(c = '>')))
  let (_, rest) ← lazyUpto (stripPreCI "</style>".data) (fun _ => true) r1
  some ([], rest)

/-- `/<script[^>]*>[\s\S]*?<\/script>/gi` (App.jsx variant 1 line 45; part_001
line 57; App.jsx variant 2 line 306): delete a script block. -/
def mScriptRm (l : List Char) : Option (List Char × List Char) := do
  let r ← stripPreCI "<script".data l
  let r1 ← expectChar '>' (r.dropWhile (fun c => !(c = '>')))
  let (_, rest) ← lazyUpto (stripPreCI "</script>".data) (fun _ => true) r1
  some ([], rest)

/-- `/<([A-Za-z0-9]+)([^>]*)\/>/g` → `<$1$2 />` (part_001 line 59; App.jsx
variant 2 line 308).  The greedy `[^>]*` followed by `\/>' succeeds exactly
when the maximal non-`>` run after the tag ends in `/` with `>` next. -/
def mSelfCloseFmt (l : List Char) : Option (List Char × List Char) := do
  let r ← expectChar '<' l
  let t := r.takeWhile alnum
  if t.isEmpty then none else
  let r1 := r.dropWhile alnum
  let s := r1.takeWhile (fun c => !(c = '>'))
  let rest ← expectChar '>' (r1.dropWhile (fun c => !(c = '>')))
  match s.getLast? with
  | some c => if c = '/' then some ('<' :: t ++ s.dropLast ++ " />".data, rest) else none
  | none => none

/-- One attempt of the paired-tag pattern for a fixed tag-name candidate:
`([^>]*)>` then `([\s\S]*?)<\/tag>`; the callback collapses whitespace-only
inner content to a self-closing form and otherwise returns the match
unchanged (part_001 lines 60–66; App.jsx variant 2 lines 309–315). -/
def mPairedTry (tag rest0 : List Char) : Option (List Char × List Char) := do
  let attrs := rest0.takeWhile (fun c => !(c = '>'))
  let r1 ← expectChar '>' (rest0.dropWhile (fun c => !(c = '>')))
  let (inner, rest) ← lazyUpto (stripPre ('<' :: '/' :: tag ++ ['>'])) (fun _ => true) r1
  if (jsTrim inner).isEmpty then
    some ('<' :: tag ++ attrs ++ " />".data, rest)
  else
    some ('<' :: tag ++ attrs ++ '>' :: inner ++ '<' :: '/' :: tag ++ ['>'], rest)

/-- Backtracking over the greedy tag-name group `([A-Za-z0-9]+)`: candidate
lengths are tried from longest to shortest, as a JavaScript engine does when
the rest of the pattern (including the `\1` backreference) fails. -/
def mPairedGo (R afterR : List Char) : Nat → Option (List Char × List Char)
  | 0 => none
  | k + 1 =>
    match mPairedTry (R.take (k + 1)) (R.drop (k + 1) ++ afterR) with
    | some res => some res
    | none => mPairedGo R afterR k

/-- `/<([A-Za-z0-9]+)([^>]*)>([\s\S]*?)<\/\1>/g` with the empty-inner collapsing
callback (part_001 lines 60–66; App.jsx variant 2 lines 309–315). -/
def mPairedEmpty (l : List Char) : Option (List Char × List Char) := do
  let r ← expectChar '<' l
  let R := r.takeWhile alnum
  if R.isEmpty then none else
  mPairedGo R (r.dropWhile alnum) R.length

/-- The literal `fill="` that both fill-injection regexes require. -/
def fillPat : List Char := "fill=\"".data

/-- Scanning loop for `<Path([^>]*?)fill="[^"]*"([^>]*?)\/>` after the literal
`<Path`: the lazy group `([^>]*?)` extends one non-`>` character at a time,
trying the remainder of the pattern at each position (part_001 lines 68–71). -/
def mFill1Try (acc l : List Char) : Option (List Char × List Char) :=
  match stripPre fillPat l with
  | none => none
  | some afterFill =>
    match expectChar '"' (afterFill.dropWhile (fun x => !(x = '"'))) with
    | none => none
    | some afterV =>
      match lazyUpto (stripPre "/>".data) (fun x => !(x = '>')) afterV with
      | none => none
      | some (g2, rest) =>
        some ("<Path".data ++ acc ++ "fill=\x7bfillColor\x7d".data ++ g2 ++ " />".data,
          rest)

/-- See `mFill1Try`: the lazy group extends while the attempt fails. -/
def mFill1Go (acc : List Char) : List Char → Option (List Char × List Char)
  | [] => none
  | c :: cs =>
    match mFill1Try acc (c :: cs) with
    | some res => some res
    | none => if c = '>' then none else mFill1Go (acc ++ [c]) cs

/-- `/<Path([^>]*?)fill="[^"]*"([^>]*?)\/>/g` → `<Path$1fill={fillColor}$2 />`
(part_001 lines 68–71). -/
def mFill1 (l : List Char) : Option (List Char × List Char) :=
  match stripPre "<Path".data l with
  | none => none
  | some r => mFill1Go [] r

/-- Scanning loop for `<Path([^>]*?)fill="[^"]*"([^>]*?)>([\s\S]*?)<\/Path>`
after the literal `<Path` (part_001 lines 72–75). -/
def mFill2Try (acc l : List Char) : Option (List Char × List Char) :=
  match stripPre fillPat l with
  | none => none
  | some afterFill =>
    match expectChar '"' (afterFill.dropWhile (fun x => !(x = '"'))) with
    | none => none
    | some afterV =>
      let g2 := afterV.takeWhile (fun x => !(x = '>'))
      match expectChar '>' (afterV.dropWhile (fun x => !(x = '>'))) with
      | none => none
      | some r1 =>
        match lazyUpto (stripPre "</Path>".data) (fun _ => true) r1 with
        | none => none
        | some (g3, rest) =>
          some ("<Path".data ++ acc ++ "fill=\x7bfillColor\x7d".data ++ g2 ++
            '>' :: g3 ++ "</Path>".data, rest)

/-- See `mFill2Try`: the lazy group extends while the attempt fails. -/
def mFill2Go (acc : List Char) : List Char → Option (List Char × List Char)
  | [] => none
  | c :: cs =>
    match mFill2Try acc (c :: cs) with
    | some res => some res
    | none => if c = '>' then none else mFill2Go (acc ++ [c]) cs

/-- `/<Path([^>]*?)fill="[^"]*"([^>]*?)>([\s\S]*?)<\/Path>/g` →
`<Path$1fill={fillColor}$2>$3</Path>` (part_001 lines 72–75). -/
def mFill2 (l : List Char) : Option (List Char × List Char) :=
  match stripPre "<Path".data l with
  | none => none
  | some r => mFill2Go [] r

/-- The fill-injection stage of the themed flavor: both fill regexes of
part_001 (lines 67–75), applied in source order. -/
def applyFill (l : List Char) : List Char :=
  scanRepl mFill2 (scanRepl mFill1 l)

/-- For a list starting with JavaScript whitespace, the remainder after the
last `\n` inside the maximal leading whitespace run (the greedy-then-backtrack
behaviour of `\s*` followed by `\n`). -/
def wsNlTail : List Char → Option (List Char)
  | [] => none
  | c :: cs =>
    if jsSpace c then
      match wsNlTail cs with
      | some r => some r
      | none => if c = '\n' then some cs else none
    else none

/-- `/^\s*\n/gm` → `""` (App.jsx variant 1 line 47; part_001 line 79; App.jsx
variant 2 line 330): delete whitespace-only line prefixes.  The boolean tracks
whether the current position is a line start (the `m`-flag `^`). -/
def selF : Nat → Bool → List Char → List Char
  | 0, _, l => l
  | _ + 1, _, [] => []
  | fuel + 1, atLS, c :: cs =>
    if atLS then
      match wsNlTail (c :: cs) with
      | some rest => selF fuel true rest
      | none => c :: selF fuel (c = '\n') cs
    else c :: selF fuel (c = '\n') cs

/-- `s.replace(/^\s*\n/gm, "")`. -/
def stripEmptyLines (l : List Char) : List Char := selF l.length true l

/-- `/\n\s*\n/g` → `"\n"` (part_001 line 80; App.jsx variant 2 line 331). -/
def mNlWsNl : List Char → Option (List Char × List Char)
  | '\n' :: cs => (wsNlTail cs).map (fun r => (['\n'], r))
  | _ => none

/-- `/\n/g` → `"\n  "` (App.jsx variant 1 line 49). -/
def indentNl2 : List Char → List Char
  | [] => []
  | c :: cs => if c = '\n' then '\n' :: ' ' :: ' ' :: indentNl2 cs else c :: indentNl2 cs

/-- `/<\?xml[^>]*\?>/gi` (part_001 line 14; App.jsx variant 2 line 241): the
greedy non-`>` run must end in `?` with `>` next. -/
def mXmlP (l : List Char) : Option (List Char × List Char) := do
  let r ← stripPreCI "<?xml".data l
  let s := r.takeWhile (fun c => !(c = '>'))
  let rest ← expectChar '>' (r.dropWhile (fun c => !(c = '>')))
  match s.getLast? with
  | some c => if c = '?' then some ([], rest) else none
  | none => none

/-- `/<!DOCTYPE[^>]*>/gi` (part_001 line 15; App.jsx variant 2 line 242). -/
def mDoctypeP (l : List Char) : Option (List Char × List Char) := do
  let r ← stripPreCI "<!DOCTYPE".data l
  let rest ← expectChar '>' (r.dropWhile (fun c => !(c = '>')))
  some ([], rest)

/-- `/<!--[\s\S]*?-->/g` (part_001 line 16; App.jsx variant 2 line 243). -/
def mCommentP (l : List Char) : Option (List Char × List Char) := do
  let r ← stripPre "<!--".data l
  let (_, rest) ← lazyUpto (stripPre "-->".data) (fun _ => true) r
  some ([], rest)

/-- The shared sanitizing prefix of part_001 (lines 13–16) and App.jsx
variant 2 (lines 240–243): strip XML declarations, then DOCTYPEs, then
comments. -/
def sanitizeP (l : List Char) : List Char :=
  scanRepl mCommentP (scanRepl mDoctypeP (scanRepl mXmlP l))

/-- `svg.match(/<svg([^>]*)>([\s\S]*?)<\/svg>/i)` (part_001 line 19; App.jsx
variant 2 line 246): the first match's two groups (attribute text and inner
content). -/
def svgExtract : List Char → Option (List Char × List Char)
  | [] => none
  | c :: cs =>
    match
      (do
        let r ← stripPreCI "<svg".data (c :: cs)
        let attrs := r.takeWhile (fun x => !(x = '>'))
        let r1 ← expectChar '>' (r.dropWhile (fun x => !(x = '>')))
        let (content, _) ← lazyUpto (stripPreCI "</svg>".data) (fun _ => true) r1
        some (attrs, content))
    with
    | some res => some res
    | none => svgExtract cs

/-- `/xmlns(:xlink)?="[^"]*"/g` (part_001 line 26; App.jsx variant 2 line 266),
with the optional-group backtracking: the `:xlink` branch is preferred and the
plain branch is retried when the rest of the pattern fails after it. -/
def mXmlnsP (l : List Char) : Option (List Char × List Char) := do
  let r ← stripPre "xmlns".data l
  let tryVal : List Char → Option (List Char) := fun x => do
    let y ← stripPre "=\"".data x
    expectChar '"' (y.dropWhile (fun c => !(c = '"')))
  match stripPre ":xlink".data r with
  | some r2 =>
    match tryVal r2 with
    | some rest => some ([], rest)
    | none => (tryVal r).map (fun rest => ([], rest))
  | none => (tryVal r).map (fun rest => ([], rest))

/-- Value characters of `([^"'\s>]+)` in the dimension-extraction regexes. -/
def dimValChar (c : Char) : Bool :=
  !(c = '"' || c = Char.ofNat 39 || jsSpace c || c = '>')

/-- A quote character, `["']`. -/
def quoteCh (c : Char) : Bool := c = '"' || c = Char.ofNat 39

/-- One position of `/width\s*=\s*["']?([^"'\s>]+)/i` (or `height`; App.jsx
variant 2 lines 252–253): keyword, optional spaces, `=`, optional spaces, an
optional quote, then a nonempty value run. -/
def dimAt (kw : List Char) (l : List Char) : Option (List Char) := do
  let r ← stripPreCI kw l
  let r2 ← expectChar '=' (r.dropWhile jsSpace)
  let r3 := r2.dropWhile jsSpace
  let r4 := match r3 with
    | c :: cs => if quoteCh c then cs else r3
    | [] => r3
  let v := r4.takeWhile dimValChar
  if v.isEmpty then none else some v

/-- First match of the dimension regex over the attribute text. -/
def findDim (kw : List Char) : List Char → Option (List Char)
  | [] => none
  | c :: cs =>
    match dimAt kw (c :: cs) with
    | some v => some v
    | none => findDim kw cs

/-- `widthValue` of App.jsx variant 2 (lines 252, 254): first `width` match or
`"100"`. -/
def v2WidthValue (attrs : List Char) : List Char :=
  (findDim "width".data attrs).getD "100".data

/-- `heightValue` of App.jsx variant 2 (lines 253, 255). -/
def v2HeightValue (attrs : List Char) : List Char :=
  (findDim "height".data attrs).getD "100".data

/-- One position of `/viewBox\s*=\s*["']([^"']+)["']/i` (App.jsx variant 2
line 341). -/
def vbAt (l : List Char) : Option (List Char) := do
  let r ← stripPreCI "viewBox".data l
  let r2 ← expectChar '=' (r.dropWhile jsSpace)
  let r3 := r2.dropWhile jsSpace
  match r3 with
  | c :: cs =>
    if quoteCh c then
      let v := cs.takeWhile (fun x => !(quoteCh x))
      if v.isEmpty then none
      else
        match cs.dropWhile (fun x => !(quoteCh x)) with
        | c2 :: _ => if quoteCh c2 then some v else none
        | [] => none
    else none
  | [] => none

/-- First match of the viewBox regex over the attribute text. -/
def findVb : List Char → Option (List Char)
  | [] => none
  | c :: cs =>
    match vbAt (c :: cs) with
    | some v => some v
    | none => findVb cs

/-- The resolved `viewBox` of App.jsx variant 2 (lines 341–344): the explicit
attribute when matched, else `0 0 ${widthValue} ${heightValue}`. -/
def v2ViewBox (attrs : List Char) : List Char :=
  match findVb attrs with
  | some v => v
  | none => "0 0 ".data ++ v2WidthValue attrs ++ ' ' :: v2HeightValue attrs

/-- The sizing triple (width, height, viewBox) that App.jsx variant 2 resolves
for an input: sanitize, extract the root `svg` match, then run the dimension
and viewBox extractions on its attribute text. -/
def v2Sizing (s : String) : Option (String × String × String) :=
  (svgExtract (sanitizeP s.data)).map
    (fun p => (⟨v2WidthValue p.1⟩, ⟨v2HeightValue p.1⟩, ⟨v2ViewBox p.1⟩))

/-! ### The generic converter (App.jsx variant 1, lines 8–61) -/

/-- The rewriting chain of App.jsx variant 1 (lines 12–51), in source order. -/
def genericBody (l : List Char) : List Char :=
  let s1 := scanRepl mXmlV1 l
  let s2 := scanRepl mCommentV1 s1
  let s3 := scanRepl mDoctypeV1 s2
  let s4 := scanRepl mXlinkV1 s3
  let s5 := scanRepl mWHRm s4
  let s6 := scanRepl mCamel s5
  let s7 := scanRepl mClassEq s6
  let s8 := scanReplOnce mSvgOpenV1 s7
  let s9 := scanReplOnce mSvgCloseV1 s8
  let s10 := scanRepl mOpenCapV1 s9
  let s11 := scanRepl mCloseCapV1 s10
  -- lines 37–41: the self-close regex's callback returns every match
  -- unchanged, so that step is the identity
  let s12 := s11
  let s13 := scanRepl mStyleRm s12
  let s14 := scanRepl mScriptRm s13
  let s15 := stripEmptyLines s14
  let s16 := indentNl2 s15
  jsTrim s16

/-- The sanitizer of the generic flavor assembled from the five removal steps
of App.jsx variant 1, in their order of appearance (lines 12, 14, 16: XML
declarations, comments, DOCTYPEs; lines 43, 45: style and script blocks — in
the source chain the last two run later, after tag rewriting, whose effect on
them the `i` flag absorbs). -/
def sanitizeV1 (l : List Char) : List Char :=
  scanRepl mScriptRm (scanRepl mStyleRm
    (scanRepl mDoctypeV1 (scanRepl mCommentV1 (scanRepl mXmlV1 l))))

/-- Lower-case image of a character list, for stating case-insensitive
occurrence facts. -/
def lcs (l : List Char) : List Char := l.map Char.toLower

/-- The fixed header of the generic component template (App.jsx variant 1,
lines 54–56 up to the interpolated body). -/
def genericHeader : List Char :=
  ("import * as React from \x27react\x27;\n" ++
   "import \x7b Svg, Path, Circle, Rect, Ellipse, G, Defs, LinearGradient, Stop, Polygon, Polyline, Line, Text, TSpan \x7d from \x27react-native-svg\x27;\n\n" ++
   "export default function SvgComponent(props) \x7b\n  return (\n    ").data

/-- The fixed footer of the generic component template (App.jsx variant 1,
line 56 after the interpolated body). -/
def genericFooter : List Char := "\n  );\n\x7d".data

/-- `svgToReactNative` of App.jsx variant 1 (lines 8–61).  The argument is an
`Option String` so that the JavaScript `null`/`undefined` inputs are
representable as `none`; `if (!svg) return ''` also fires on the empty
string. -/
def svgToReactNativeGeneric : Option String → String
  | none => ""
  | some s =>
    if s.data.isEmpty then ""
    else ⟨genericHeader ++ genericBody s.data ++ genericFooter⟩

/-! ### The themed converter (part_001, lines 8–111) -/

/-- The attribute rewriting of part_001 (lines 25–36): drop `xmlns` /
`xmlns:xlink` and `width`/`height` attributes, trim, camel-case. -/
def themedAttrs (svgAttrs : List Char) : List Char :=
  let a1 := scanRepl mXmlnsP svgAttrs
  let a2 := scanRepl mWHRm a1
  scanRepl mCamel (jsTrim a2)

/-- The self-closing formatting and empty-pair collapsing steps of the themed
content pipeline (part_001 lines 58–66), as one stage. -/
def selfCloseStage (l : List Char) : List Char :=
  scanRepl mPairedEmpty (scanRepl mSelfCloseFmt l)

/-- The content rewriting of part_001 (lines 39–87), in source order. -/
def themedContent (c0 : List Char) : List Char :=
  let c1 := scanRepl mOpenCapCI c0
  let c2 := scanRepl mCloseCapCI c1
  let c3 := scanRepl mClassEq c2
  let c4 := scanRepl mCamel c3
  let c5 := scanRepl mStyleRm c4
  let c6 := scanRepl mScriptRm c5
  let c8 := selfCloseStage c6
  let c10 := applyFill c8
  let c11 := stripEmptyLines c10
  let c12 := scanRepl mNlWsNl c11
  let c13 := jsTrim c12
  joinWithNl ((splitNl c13).map (fun ln => "      ".data ++ ln))

/-- The fixed prefix of the themed component template, up to the interpolated
`${attributes}` (part_001 lines 91–100). -/
def themedPre : List Char :=
  ("import React from \"react\"\n" ++
   "import Svg, \x7b Path \x7d from \"react-native-svg\"\n\n" ++
   "interface ThemeSVGProps \x7b\n" ++
   "  width: number // Accepts width as a prop\n" ++
   "  fillColor: string\n" ++
   "\x7d\n\n" ++
   "const FinalVersion: React.FC<ThemeSVGProps> = (\x7b width, fillColor \x7d) => \x7b\n" ++
   "  const height = (width * 1024) / 1024 // Maintain the aspect ratio based on the original SVG size\n\n" ++
   "  return (\n" ++
   "    <Svg width=\x7bwidth\x7d height=\x7bheight\x7d ").data

/-- Between `${attributes}` and `${content}` in the themed template
(part_001 lines 100–101). -/
def themedMid : List Char := " fill=\x7bfillColor\x7d>\n".data

/-- After `${content}` in the themed template (part_001 lines 101–105). -/
def themedPost : List Char :=
  "\n    </Svg>\n  )\n\x7d\n\nexport default FinalVersion".data

/-- The themed template assembled around rewritten attributes and content. -/
def themedTemplate (attrs content : List Char) : List Char :=
  themedPre ++ attrs ++ themedMid ++ content ++ themedPost

/-- `svgToReactNative` of part_001 (lines 8–111). -/
def svgToReactNativeThemed : Option String → String
  | none => "// Invalid SVG input"
  | some s =>
    if s.data.isEmpty then "// Invalid SVG input"
    else
      match svgExtract (sanitizeP s.data) with
      | none => "// No valid SVG content found"
      | some (attrs, content) =>
        ⟨themedTemplate (themedAttrs attrs) (themedContent content)⟩

/-! ### General lemmas about the scanning combinators -/

theorem scanReplF_of_none (f : List Char → Option (List Char × List Char)) :
    ∀ (fuel : Nat) (l : List Char), (∀ i, f (l.drop i) = none) →
      scanReplF f fuel l = l := by
  intro fuel
  induction fuel with
  | zero => intro l _h; cases l <;> rfl
  | succ n ih =>
    intro l h
    cases l with
    | nil => rfl
    | cons c cs =>
      have h0 := h 0
      simp only [List.drop_zero] at h0
      simp only [scanReplF, h0]
      exact congrArg (c :: ·) (ih cs (fun i => by simpa using h (i + 1)))

theorem scanRepl_of_none (f : List Char → Option (List Char × List Char))
    (l : List Char) (h : ∀ i, f (l.drop i) = none) : scanRepl f l = l :=
  scanReplF_of_none f l.length l h

theorem scanRepl_cons_of_none (f : List Char → Option (List Char × List Char))
    (c : Char) (cs : List Char) (h : f (c :: cs) = none) :
    scanRepl f (c :: cs) = c :: scanRepl f cs := by
  simp only [scanRepl, List.length_cons, scanReplF, h]

theorem scanRepl_append_of_none (f : List Char → Option (List Char × List Char))
    (a y : List Char) (h : ∀ s, s ≠ [] → s <:+ a → f (s ++ y) = none) :
    scanRepl f (a ++ y) = a ++ scanRepl f y := by
  induction a with
  | nil => simp
  | cons c cs ih =>
    have h0 : f (c :: (cs ++ y)) = none := by
      have := h (c :: cs) (by simp) (List.suffix_refl _)
      simpa using this
    rw [List.cons_append, scanRepl_cons_of_none f _ _ h0,
      ih (fun s hne hs => h s hne (hs.trans (List.suffix_cons c cs)))]
    rfl

theorem scanReplF_irrel (f : List Char → Option (List Char × List Char))
    (Hf : ∀ x r t, f x = some (r, t) → t.length < x.length) :
    ∀ (fuel : Nat) (l : List Char), l.length ≤ fuel →
      scanReplF f fuel l = scanRepl f l := by
  intro fuel
  induction fuel using Nat.strong_induction_on with
  | _ fuel ih =>
    intro l hl
    cases fuel with
    | zero =>
      have : l = [] := List.length_eq_zero.mp (Nat.le_zero.mp hl)
      subst this; rfl
    | succ n =>
      cases l with
      | nil => rfl
      | cons c cs =>
        have hcs : cs.length ≤ n := by
          simpa [Nat.succ_le_succ_iff] using hl
        cases hf : f (c :: cs) with
        | none =>
          rw [scanRepl_cons_of_none f c cs hf]
          simp only [scanReplF, hf]
          rw [ih n (Nat.lt_succ_self n) cs hcs]
        | some p =>
          obtain ⟨r, rest⟩ := p
          have hrest : rest.length < cs.length + 1 := Hf _ _ _ hf
          have e1 : scanReplF f (n + 1) (c :: cs) = r ++ scanReplF f n rest := by
            simp only [scanReplF, hf]
          have e2 : scanRepl f (c :: cs) = r ++ scanReplF f cs.length rest := by
            simp only [scanRepl, List.length_cons, scanReplF, hf]
          rw [e1, e2,
            ih n (Nat.lt_succ_self n) rest (by omega),
            ih cs.length (by omega) rest (by omega)]

theorem scanRepl_head (f : List Char → Option (List Char × List Char))
    (Hf : ∀ x r t, f x = some (r, t) → t.length < x.length)
    (l r rest : List Char) (h : f l = some (r, rest)) :
    scanRepl f l = r ++ scanRepl f rest := by
  cases l with
  | nil => exact absurd (Hf _ _ _ h) (by simp)
  | cons c cs =>
    have hrest : rest.length < cs.length + 1 := Hf _ _ _ h
    have e : scanRepl f (c :: cs) = r ++ scanReplF f cs.length rest := by
      simp only [scanRepl, List.length_cons, scanReplF, h]
    rw [e, scanReplF_irrel f Hf cs.length rest (by omega)]

/-! ### Lemmas about the matching primitives -/

theorem stripPre_of_append (pat l : List Char) : stripPre pat (pat ++ l) = some l := by
  induction pat with
  | nil => rfl
  | cons p ps ih => simp [stripPre, ih]

theorem stripPre_eq_some (pat : List Char) :
    ∀ l r, stripPre pat l = some r → l = pat ++ r := by
  induction pat with
  | nil => intro l r h; simp [stripPre] at h; simp [h]
  | cons p ps ih =>
    intro l r h
    cases l with
    | nil => simp [stripPre] at h
    | cons c cs =>
      by_cases hc : c = p
      · subst hc
        simp only [stripPre, if_pos rfl] at h
        simpa using ih cs r h
      · simp [stripPre, hc] at h

theorem stripPre_none_of_not_pre (pat l : List Char) (h : ¬ pat <+: l) :
    stripPre pat l = none := by
  cases hs : stripPre pat l with
  | none => rfl
  | some r => exact absurd ⟨r, (stripPre_eq_some pat l r hs).symm⟩ h

theorem stripPreCI_some_lcs (pat : List Char) :
    ∀ l r, stripPreCI pat l = some r → lcs l = lcs pat ++ lcs r := by
  induction pat with
  | nil => intro l r h; simp [stripPreCI] at h; simp [h, lcs]
  | cons p ps ih =>
    intro l r h
    cases l with
    | nil => simp [stripPreCI] at h
    | cons c cs =>
      by_cases hc : c.toLower = p.toLower
      · simp only [stripPreCI, if_pos hc] at h
        have := ih cs r h
        simp only [lcs, List.map_cons] at this ⊢
        rw [this, hc, List.cons_append]
      · simp [stripPreCI, hc] at h

theorem takeWhile_append_all (p : Char → Bool) (a : List Char) :
    ∀ l, (∀ c ∈ a, p c = true) → (a ++ l).takeWhile p = a ++ l.takeWhile p := by
  induction a with
  | nil => intro l _; rfl
  | cons c cs ih =>
    intro l h
    have hc : p c = true := h c (by simp)
    simp only [List.cons_append, List.takeWhile_cons, hc, if_true]
    rw [ih l (fun x hx => h x (by simp [hx]))]

theorem dropWhile_append_all (p : Char → Bool) (a : List Char) :
    ∀ l, (∀ c ∈ a, p c = true) → (a ++ l).dropWhile p = l.dropWhile p := by
  induction a with
  | nil => intro l _; rfl
  | cons c cs ih =>
    intro l h
    have hc : p c = true := h c (by simp)
    simp only [List.cons_append, List.dropWhile_cons, hc, if_true]
    exact ih l (fun x hx => h x (by simp [hx]))

theorem infix_of_pre_drop (pat l : List Char) (i : Nat) (h : pat <+: l.drop i) :
    pat <:+: l :=
  h.isInfix.trans (List.drop_suffix i l).isInfix

theorem expectChar_eq_some (c : Char) :
    ∀ l r, expectChar c l = some r → l = c :: r := by
  intro l r h
  cases l with
  | nil => simp [expectChar] at h
  | cons x xs =>
    by_cases hx : x = c
    · subst hx; simp [expectChar] at h; simp [h]
    · simp [expectChar, hx] at h

/-! ### The camel-casing pass (claim C7 support) -/

theorem mCamel_at (a b rest : List Char) (ha : a ≠ []) (ha2 : ∀ c ∈ a, alnum c = true)
    (hb : b ≠ []) (hb2 : ∀ c ∈ b, alnum c = true) :
    mCamel (a ++ '-' :: (b ++ '=' :: rest)) = some (a ++ upperFirst b ++ ['='], rest) := by
  have hdash : alnum '-' = false := by decide
  have heq : alnum '=' = false := by decide
  have htw1 : (a ++ '-' :: (b ++ '=' :: rest)).takeWhile alnum = a := by
    rw [takeWhile_append_all alnum a _ ha2]
    simp [List.takeWhile_cons, hdash]
  have hdw1 : (a ++ '-' :: (b ++ '=' :: rest)).dropWhile alnum = '-' :: (b ++ '=' :: rest) := by
    rw [dropWhile_append_all alnum a _ ha2]
    simp [List.dropWhile_cons, hdash]
  have htw2 : (b ++ '=' :: rest).takeWhile alnum = b := by
    rw [takeWhile_append_all alnum b _ hb2]
    simp [List.takeWhile_cons, heq]
  have hdw2 : (b ++ '=' :: rest).dropWhile alnum = '=' :: rest := by
    rw [dropWhile_append_all alnum b _ hb2]
    simp [List.dropWhile_cons, heq]
  have hae : a.isEmpty = false := by cases a with
    | nil => exact absurd rfl ha
    | cons x xs => rfl
  have hbe : b.isEmpty = false := by cases b with
    | nil => exact absurd rfl hb
    | cons x xs => rfl
  have e1 : expectChar '-' ('-' :: (b ++ '=' :: rest)) = some (b ++ '=' :: rest) := by
    simp [expectChar]
  have e2 : expectChar '=' ('=' :: rest) = some rest := by simp [expectChar]
  simp only [mCamel, htw1, hdw1, hae, Bool.false_eq_true, if_false, e1, htw2,
    hdw2, hbe, e2]

theorem mCamel_consumes : ∀ x r t, mCamel x = some (r, t) → t.length < x.length := by
  intro x r t h
  simp only [mCamel] at h
  by_cases hae : (x.takeWhile alnum).isEmpty
  · simp [hae] at h
  · simp only [hae, Bool.false_eq_true, if_false] at h
    cases h1 : expectChar '-' (x.dropWhile alnum) with
    | none => simp [h1] at h
    | some r1 =>
      simp only [h1] at h
      by_cases hbe : (r1.takeWhile alnum).isEmpty
      · simp [hbe] at h
      · simp only [hbe, Bool.false_eq_true, if_false] at h
        cases h2 : expectChar '=' (r1.dropWhile alnum) with
        | none => simp [h2] at h
        | some r2 =>
          simp only [h2, Option.some.injEq, Prod.mk.injEq] at h
          have e1 := expectChar_eq_some '-' _ _ h1
          have e2 := expectChar_eq_some '=' _ _ h2
          have l1 : (x.dropWhile alnum).length ≤ x.length :=
            (List.dropWhile_suffix alnum).length_le
          have l2 : (r1.dropWhile alnum).length ≤ r1.length :=
            (List.dropWhile_suffix alnum).length_le
          have e1l : (x.dropWhile alnum).length = r1.length + 1 := by rw [e1]; rfl
          have e2l : (r1.dropWhile alnum).length = r2.length + 1 := by rw [e2]; rfl
          have : t = r2 := h.2.symm ▸ rfl
          subst this
          omega

theorem camel_single (a b rest : List Char) (ha : a ≠ []) (ha2 : ∀ c ∈ a, alnum c = true)
    (hb : b ≠ []) (hb2 : ∀ c ∈ b, alnum c = true) :
    scanRepl mCamel (a ++ '-' :: (b ++ '=' :: rest)) =
      a ++ upperFirst b ++ '=' :: scanRepl mCamel rest := by
  rw [scanRepl_head mCamel mCamel_consumes _ _ _ (mCamel_at a b rest ha ha2 hb hb2)]
  simp

theorem camel_double (b c rest : List Char)
    (hb : b ≠ []) (hb2 : ∀ x ∈ b, alnum x = true)
    (hc : c ≠ []) (hc2 : ∀ x ∈ c, alnum x = true) :
    ∀ a, (∀ x ∈ a, alnum x = true) →
      scanRepl mCamel (a ++ '-' :: (b ++ '-' :: (c ++ '=' :: rest))) =
        a ++ '-' :: (b ++ upperFirst c ++ '=' :: scanRepl mCamel rest) := by
  intro a
  induction a with
  | nil =>
    intro _
    have hnone : mCamel ('-' :: (b ++ '-' :: (c ++ '=' :: rest))) = none := by
      have : ('-' :: (b ++ '-' :: (c ++ '=' :: rest))).takeWhile alnum = [] := by
        simp [List.takeWhile_cons]; decide
      simp [mCamel, this]
    rw [List.nil_append, scanRepl_cons_of_none mCamel _ _ hnone,
      camel_single b c rest hb hb2 hc hc2]
    rfl
  | cons x xs ih =>
    intro hall
    have hx : alnum x = true := hall x (by simp)
    have hxs : ∀ y ∈ xs, alnum y = true := fun y hy => hall y (by simp [hy])
    have hdash : alnum '-' = false := by decide
    have hall2 : ∀ y ∈ x :: xs, alnum y = true := by
      intro y hy
      rcases List.mem_cons.mp hy with h | h
      · exact h ▸ hx
      · exact hxs y h
    have hnone : mCamel (x :: xs ++ '-' :: (b ++ '-' :: (c ++ '=' :: rest))) = none := by
      have htw1 : (x :: xs ++ '-' :: (b ++ '-' :: (c ++ '=' :: rest))).takeWhile alnum
          = x :: xs := by
        rw [show (x :: xs ++ '-' :: (b ++ '-' :: (c ++ '=' :: rest)))
            = (x :: xs) ++ '-' :: (b ++ '-' :: (c ++ '=' :: rest)) from rfl,
          takeWhile_append_all alnum (x :: xs) _ hall2]
        simp [List.takeWhile_cons, hdash]
      have hdw1 : (x :: xs ++ '-' :: (b ++ '-' :: (c ++ '=' :: rest))).dropWhile alnum
          = '-' :: (b ++ '-' :: (c ++ '=' :: rest)) := by
        rw [show (x :: xs ++ '-' :: (b ++ '-' :: (c ++ '=' :: rest)))
            = (x :: xs) ++ '-' :: (b ++ '-' :: (c ++ '=' :: rest)) from rfl,
          dropWhile_append_all alnum (x :: xs) _ hall2]
        simp [List.dropWhile_cons, hdash]
      have htw2 : (b ++ '-' :: (c ++ '=' :: rest)).takeWhile alnum = b := by
        rw [takeWhile_append_all alnum b _ hb2]
        simp [List.takeWhile_cons, hdash]
      have hdw2 : (b ++ '-' :: (c ++ '=' :: rest)).dropWhile alnum
          = '-' :: (c ++ '=' :: rest) := by
        rw [dropWhile_append_all alnum b _ hb2]
        simp [List.dropWhile_cons, hdash]
      have hbe : b.isEmpty = false := by cases b with
        | nil => exact absurd rfl hb
        | cons y ys => rfl
      have e1 : expectChar '-' ('-' :: (b ++ '-' :: (c ++ '=' :: rest)))
          = some (b ++ '-' :: (c ++ '=' :: rest)) := by simp [expectChar]
      have e2 : expectChar '=' ('-' :: (c ++ '=' :: rest)) = none := by
        simp [expectChar]
      simp only [mCamel, htw1, List.isEmpty_cons, Bool.false_eq_true, if_false,
        hdw1, e1, htw2, hdw2, hbe, e2]
    rw [List.cons_append,
      scanRepl_cons_of_none mCamel x (xs ++ '-' :: (b ++ '-' :: (c ++ '=' :: rest))) hnone,
      ih hxs]
    simp

/-! ### The fill-injection pass (claim C3 support) -/

theorem stripPre_some_len (pat : List Char) :
    ∀ l r, stripPre pat l = some r → l.length = pat.length + r.length := by
  intro l r h
  rw [stripPre_eq_some pat l r h, List.length_append]

theorem stripPre_append_none (pat : List Char) :
    ∀ s z, pat.length ≤ s.length → stripPre pat s = none →
      stripPre pat (s ++ z) = none := by
  induction pat with
  | nil => intro s z _ h; simp [stripPre] at h
  | cons p ps ih =>
    intro s z hlen h
    cases s with
    | nil => simp at hlen
    | cons c cs =>
      by_cases hc : c = p
      · subst hc
        simp only [stripPre, if_pos rfl] at h ⊢
        exact ih cs z (by simpa using hlen) h
      · simp [stripPre, hc]

theorem lazyUpto_rest_lt (stop : List Char → Option (List Char))
    (allowed : Char → Bool)
    (hs : ∀ x r, stop x = some r → r.length < x.length) :
    ∀ l g r, lazyUpto stop allowed l = some (g, r) → r.length < l.length := by
  intro l
  induction l with
  | nil =>
    intro g r h
    cases hx : stop [] with
    | none => simp [lazyUpto, hx] at h
    | some x => exact absurd (hs [] x hx) (by simp)
  | cons c cs ih =>
    intro g r h
    cases hx : stop (c :: cs) with
    | some x =>
      simp only [lazyUpto, hx, Option.some.injEq, Prod.mk.injEq] at h
      exact h.2 ▸ hs _ _ hx
    | none =>
      simp only [lazyUpto, hx] at h
      by_cases hc : allowed c
      · simp only [hc, if_true, Option.map_eq_some'] at h
        obtain ⟨⟨g', r'⟩, hp, he⟩ := h
        have hr : r = r' := by
          have := congrArg Prod.snd he
          simpa using this.symm
        subst hr
        have := ih g' r hp
        simp only [List.length_cons]
        omega
      · simp [hc] at h

theorem lazyUpto_through (stop : List Char → Option (List Char))
    (allowed : Char → Bool) (a : List Char) :
    ∀ z r, (∀ s, s ≠ [] → s <:+ a → stop (s ++ z) = none) →
      (∀ c ∈ a, allowed c = true) → stop z = some r →
      lazyUpto stop allowed (a ++ z) = some (a, r) := by
  induction a with
  | nil =>
    intro z r _ _ hz
    cases z with
    | nil => simp [lazyUpto, hz]
    | cons c cs => simp [lazyUpto, hz]
  | cons c cs ih =>
    intro z r hstop hall hz
    have h0 : stop (c :: (cs ++ z)) = none := by
      have := hstop (c :: cs) (by simp) (List.suffix_refl _)
      simpa using this
    have hc : allowed c = true := hall c (by simp)
    rw [List.cons_append]
    simp only [lazyUpto, h0, hc, if_true]
    rw [ih z r (fun s hne hs => hstop s hne (hs.trans (List.suffix_cons c cs)))
      (fun x hx => hall x (by simp [hx])) hz]
    rfl

theorem fillPat_eq : fillPat = ['f', 'i', 'l', 'l', '=', '"'] := rfl

theorem mFill1Try_none_head (acc : List Char) (c : Char) (cs : List Char)
    (hc : ¬ c = 'f') : mFill1Try acc (c :: cs) = none := by
  simp [mFill1Try, fillPat_eq, stripPre, hc]

theorem mFill1Try_none_indep (acc l : List Char) (h : mFill1Try [] l = none) :
    mFill1Try acc l = none := by
  simp only [mFill1Try] at h ⊢
  cases h1 : stripPre fillPat l with
  | none => rfl
  | some afterFill =>
    simp only [h1] at h ⊢
    cases h2 : expectChar '"' (afterFill.dropWhile (fun x => !(x = '"'))) with
    | none => rfl
    | some afterV =>
      simp only [h2] at h ⊢
      cases h3 : lazyUpto (stripPre "/>".data) (fun x => !(x = '>')) afterV with
      | none => rfl
      | some p => simp [h3] at h

theorem mFill1Try_consumes (acc : List Char) :
    ∀ l r t, mFill1Try acc l = some (r, t) → t.length < l.length := by
  intro l r t h
  simp only [mFill1Try] at h
  cases h1 : stripPre fillPat l with
  | none => simp [h1] at h
  | some afterFill =>
    simp only [h1] at h
    cases h2 : expectChar '"' (afterFill.dropWhile (fun x => !(x = '"'))) with
    | none => simp [h2] at h
    | some afterV =>
      simp only [h2] at h
      cases h3 : lazyUpto (stripPre "/>".data) (fun x => !(x = '>')) afterV with
      | none => simp [h3] at h
      | some p =>
        obtain ⟨g2, rest⟩ := p
        simp only [h3, Option.some.injEq, Prod.mk.injEq] at h
        have ht : t = rest := h.2.symm ▸ rfl
        subst ht
        have hlt : t.length < afterV.length := by
          refine lazyUpto_rest_lt (stripPre "/>".data) _ ?_ afterV g2 t h3
          intro x r' hx
          have := stripPre_some_len "/>".data x r' hx
          simp at this
          omega
        have l1 := stripPre_some_len fillPat l afterFill h1
        have l2 : afterV.length < (afterFill.dropWhile (fun x => !(x = '"'))).length := by
          rw [expectChar_eq_some '"' _ _ h2]
          simp
        have l3 : (afterFill.dropWhile (fun x => !(x = '"'))).length ≤ afterFill.length :=
          (List.dropWhile_suffix _).length_le
        simp [fillPat_eq] at l1
        omega

theorem mFill1Go_seg (a : List Char) :
    ∀ z acc, (∀ s, s ≠ [] → s <:+ a → mFill1Try [] (s ++ z) = none) →
      (∀ c ∈ a, ¬ c = '>') →
      mFill1Go acc (a ++ z) = mFill1Go (acc ++ a) z := by
  induction a with
  | nil => intro z acc _ _; simp
  | cons c cs ih =>
    intro z acc h hgt
    have h0 : mFill1Try acc (c :: (cs ++ z)) = none := by
      apply mFill1Try_none_indep
      have := h (c :: cs) (by simp) (List.suffix_refl _)
      simpa using this
    have hc : ¬ c = '>' := hgt c (by simp)
    rw [List.cons_append]
    simp only [mFill1Go, h0, hc, if_false]
    rw [ih z (acc ++ [c]) (fun s hne hs => h s hne (hs.trans (List.suffix_cons c cs)))
      (fun x hx => hgt x (by simp [hx]))]
    simp

theorem mFill1Go_some_hit (a : List Char) :
    ∀ l r t, mFill1Go a l = some (r, t) → fillPat <:+: l := by
  intro l
  induction l generalizing a with
  | nil => intro r t h; simp [mFill1Go] at h
  | cons c cs ih =>
    intro r t h
    simp only [mFill1Go] at h
    cases h1 : mFill1Try a (c :: cs) with
    | some p =>
      have h2 : stripPre fillPat (c :: cs) ≠ none := by
        intro hn
        simp [mFill1Try, hn] at h1
      cases h3 : stripPre fillPat (c :: cs) with
      | none => exact absurd h3 h2
      | some x => exact ⟨[], x, by simpa using (stripPre_eq_some _ _ _ h3).symm⟩
    | none =>
      simp only [h1] at h
      by_cases hc : c = '>'
      · simp [hc] at h
      · simp only [hc, if_false] at h
        exact ((ih (a ++ [c]) r t h).trans (List.suffix_cons c cs).isInfix)

theorem mFill1_some_hit (l r t : List Char) (h : mFill1 l = some (r, t)) :
    fillPat <:+: l := by
  simp only [mFill1] at h
  cases h1 : stripPre "<Path".data l with
  | none => simp [h1] at h
  | some x =>
    simp only [h1] at h
    have := mFill1Go_some_hit [] x r t h
    rw [stripPre_eq_some _ _ _ h1]
    exact this.trans (List.suffix_append _ x).isInfix

theorem mFill1_consumes :
    ∀ l r t, mFill1 l = some (r, t) → t.length < l.length := by
  have go : ∀ l a r t, mFill1Go a l = some (r, t) → t.length < l.length := by
    intro l
    induction l with
    | nil => intro a r t h; simp [mFill1Go] at h
    | cons c cs ih =>
      intro a r t h
      simp only [mFill1Go] at h
      cases h1 : mFill1Try a (c :: cs) with
      | some p =>
        obtain ⟨r0, t0⟩ := p
        rw [h1] at h
        have he : r0 = r ∧ t0 = t := by
          constructor <;> [exact congrArg Prod.fst (Option.some.inj h);
            exact congrArg Prod.snd (Option.some.inj h)]
        exact he.2 ▸ mFill1Try_consumes a _ _ _ h1
      | none =>
        rw [h1] at h
        by_cases hc : c = '>'
        · simp [hc] at h
        · simp only [hc, if_false] at h
          have := ih (a ++ [c]) r t h
          simp only [List.length_cons]
          omega
  intro l r t h
  simp only [mFill1] at h
  cases h1 : stripPre "<Path".data l with
  | none => simp [h1] at h
  | some x =>
    rw [h1] at h
    have := go x [] r t h
    have := stripPre_some_len "<Path".data l x h1
    simp at this
    omega

theorem stopSlashGt_none (post : List Char) (hpost : ∀ c ∈ post, ¬ c = '>')
    (rest : List Char) :
    ∀ s, s ≠ [] → s <:+ post →
      stripPre "/>".data (s ++ ("/>".data ++ rest)) = none := by
  intro s hne hs
  cases s with
  | nil => exact absurd rfl hne
  | cons c cs =>
    by_cases hc : c = '/'
    · subst hc
      cases cs with
      | nil => simp [stripPre]
      | cons d ds =>
        have hd : ¬ d = '>' := hpost d (hs.subset (by simp))
        simp [stripPre, hd]
    · simp [stripPre, hc]

theorem mFill1Try_at (acc v post rest : List Char)
    (hv : ∀ c ∈ v, ¬ c = '"') (hpost : ∀ c ∈ post, ¬ c = '>') :
    mFill1Try acc (fillPat ++ (v ++ '"' :: (post ++ ("/>".data ++ rest)))) =
      some ("<Path".data ++ acc ++ "fill=\x7bfillColor\x7d".data ++ post ++ " />".data,
        rest) := by
  have h1 : stripPre fillPat (fillPat ++ (v ++ '"' :: (post ++ ("/>".data ++ rest))))
      = some (v ++ '"' :: (post ++ ("/>".data ++ rest))) := stripPre_of_append _ _
  have h2 : (v ++ '"' :: (post ++ ("/>".data ++ rest))).dropWhile (fun x => !(x = '"'))
      = '"' :: (post ++ ("/>".data ++ rest)) := by
    rw [dropWhile_append_all _ v _ (by intro c hc; simp [hv c hc])]
    simp [List.dropWhile_cons]
  have h3 : expectChar '"' ('"' :: (post ++ ("/>".data ++ rest)))
      = some (post ++ ("/>".data ++ rest)) := by simp [expectChar]
  have h4 : lazyUpto (stripPre "/>".data) (fun x => !(x = '>'))
      (post ++ ("/>".data ++ rest)) = some (post, rest) :=
    lazyUpto_through _ _ post _ rest (stopSlashGt_none post hpost rest)
      (by intro c hc; simp [hpost c hc]) (stripPre_of_append _ _)
  simp only [mFill1Try, h1, h2, h3, h4]

theorem mFill2Try_none_head (acc : List Char) (c : Char) (cs : List Char)
    (hc : ¬ c = 'f') : mFill2Try acc (c :: cs) = none := by
  simp [mFill2Try, fillPat_eq, stripPre, hc]

theorem mFill2Try_none_indep (acc l : List Char) (h : mFill2Try [] l = none) :
    mFill2Try acc l = none := by
  simp only [mFill2Try] at h ⊢
  cases h1 : stripPre fillPat l with
  | none => rfl
  | some afterFill =>
    simp only [h1] at h ⊢
    cases h2 : expectChar '"' (afterFill.dropWhile (fun x => !(x = '"'))) with
    | none => rfl
    | some afterV =>
      simp only [h2] at h ⊢
      cases h3 : expectChar '>' (afterV.dropWhile (fun x => !(x = '>'))) with
      | none => rfl
      | some r1 =>
        simp only [h3] at h ⊢
        cases h4 : lazyUpto (stripPre "</Path>".data) (fun _ => true) r1 with
        | none => rfl
        | some p => simp [h4] at h

theorem mFill2Go_seg (a : List Char) :
    ∀ z acc, (∀ s, s ≠ [] → s <:+ a → mFill2Try [] (s ++ z) = none) →
      (∀ c ∈ a, ¬ c = '>') →
      mFill2Go acc (a ++ z) = mFill2Go (acc ++ a) z := by
  induction a with
  | nil => intro z acc _ _; simp
  | cons c cs ih =>
    intro z acc h hgt
    have h0 : mFill2Try acc (c :: (cs ++ z)) = none := by
      apply mFill2Try_none_indep
      have := h (c :: cs) (by simp) (List.suffix_refl _)
      simpa using this
    have hc : ¬ c = '>' := hgt c (by simp)
    rw [List.cons_append]
    simp only [mFill2Go, h0, hc, if_false]
    rw [ih z (acc ++ [c]) (fun s hne hs => h s hne (hs.trans (List.suffix_cons c cs)))
      (fun x hx => hgt x (by simp [hx]))]
    simp

theorem mFill2Go_gt (acc : List Char) (cs : List Char) :
    mFill2Go acc ('>' :: cs) = none := by
  have h0 : mFill2Try acc ('>' :: cs) = none := mFill2Try_none_head acc '>' cs (by decide)
  simp [mFill2Go, h0]

theorem mFill2Go_some_hit (a : List Char) :
    ∀ l r t, mFill2Go a l = some (r, t) → fillPat <:+: l := by
  intro l
  induction l generalizing a with
  | nil => intro r t h; simp [mFill2Go] at h
  | cons c cs ih =>
    intro r t h
    simp only [mFill2Go] at h
    cases h1 : mFill2Try a (c :: cs) with
    | some p =>
      have h2 : stripPre fillPat (c :: cs) ≠ none := by
        intro hn
        simp [mFill2Try, hn] at h1
      cases h3 : stripPre fillPat (c :: cs) with
      | none => exact absurd h3 h2
      | some x => exact ⟨[], x, by simpa using (stripPre_eq_some _ _ _ h3).symm⟩
    | none =>
      simp only [h1] at h
      by_cases hc : c = '>'
      · simp [hc] at h
      · simp only [hc, if_false] at h
        exact ((ih (a ++ [c]) r t h).trans (List.suffix_cons c cs).isInfix)

theorem mFill2_some_hit (l r t : List Char) (h : mFill2 l = some (r, t)) :
    fillPat <:+: l := by
  simp only [mFill2] at h
  cases h1 : stripPre "<Path".data l with
  | none => simp [h1] at h
  | some x =>
    simp only [h1] at h
    have := mFill2Go_some_hit [] x r t h
    rw [stripPre_eq_some _ _ _ h1]
    exact this.trans (List.suffix_append _ x).isInfix

theorem mFill2_none_head (c : Char) (cs : List Char) (hc : ¬ c = '<') :
    mFill2 (c :: cs) = none := by
  simp [mFill2, stripPre, show "<Path".data = ['<', 'P', 'a', 't', 'h'] from rfl, hc]

theorem mFill1_none_head (c : Char) (cs : List Char) (hc : ¬ c = '<') :
    mFill1 (c :: cs) = none := by
  simp [mFill1, stripPre, show "<Path".data = ['<', 'P', 'a', 't', 'h'] from rfl, hc]

theorem mFill1Try_none_of_strip (acc l : List Char)
    (h : stripPre fillPat l = none) : mFill1Try acc l = none := by
  simp [mFill1Try, h]

theorem mFill1Go_step (acc : List Char) (c : Char) (cs : List Char)
    (h : mFill1Try acc (c :: cs) = none) (hc : ¬ c = '>') :
    mFill1Go acc (c :: cs) = mFill1Go (acc ++ [c]) cs := by
  simp [mFill1Go, h, hc]

theorem mFill1Go_gt (acc : List Char) (cs : List Char) :
    mFill1Go acc ('>' :: cs) = none := by
  have h0 : mFill1Try acc ('>' :: cs) = none := mFill1Try_none_head acc '>' cs (by decide)
  simp [mFill1Go, h0]

theorem mFill2Go_head_some (acc l r t : List Char)
    (h : mFill2Try acc l = some (r, t)) (hl : l ≠ []) :
    mFill2Go acc l = some (r, t) := by
  cases l with
  | nil => exact absurd rfl hl
  | cons c cs => simp [mFill2Go, h]

/-- A suffix of an appended list is a suffix of the right part, or carries a
nonempty suffix of the left part in front of the whole right part. -/
theorem suffix_append_split {s x y : List Char} (h : s <:+ x ++ y) :
    s <:+ y ∨ ∃ w, w ≠ [] ∧ w <:+ x ∧ s = w ++ y := by
  obtain ⟨u, hu⟩ := h
  by_cases hlen : x.length ≤ u.length
  · left
    have hx : x <+: u := by
      refine List.prefix_of_prefix_length_le ?_ (List.prefix_append u s) hlen
      rw [hu]
      exact List.prefix_append x y
    obtain ⟨u', hu'⟩ := hx
    refine ⟨u', ?_⟩
    have h2 : x ++ (u' ++ s) = x ++ y := by
      rw [← List.append_assoc, hu', hu]
    exact List.append_cancel_left h2
  · right
    push_neg at hlen
    have hx : u <+: x := by
      refine List.prefix_of_prefix_length_le ?_ (List.prefix_append x y) (Nat.le_of_lt hlen)
      rw [← hu]
      exact List.prefix_append u s
    obtain ⟨w, hw⟩ := hx
    have hwne : w ≠ [] := by
      intro h0
      subst h0
      rw [List.append_nil] at hw
      subst hw
      omega
    refine ⟨w, hwne, ⟨u, hw⟩, ?_⟩
    have h2 : u ++ s = u ++ (w ++ y) := by
      rw [hu, ← hw, List.append_assoc]
    exact List.append_cancel_left h2

theorem fillPat_split : fillPat = "fill=".data ++ ['"'] := rfl

theorem suffix_singleton_getLast (l : List Char) (c : Char) (h : [c] <:+ l) :
    l.getLast? = some c := by
  obtain ⟨u, hu⟩ := h
  rw [← hu]
  exact List.getLast?_concat u

/-- No occurrence of `fill="` can start inside `pre` when the text continues
with `fill=`-shaped material, provided `pre ++ "fill="` contains none. -/
theorem noFalseStart (pre : List Char)
    (h : ¬ fillPat <:+: (pre ++ "fill=".data)) (t : List Char) :
    ∀ s, s ≠ [] → s <:+ pre →
      stripPre fillPat (s ++ ("fill=".data ++ t)) = none := by
  intro s hne hs
  apply stripPre_none_of_not_pre
  intro hp
  have hk1 : 0 < s.length := List.length_pos.mpr hne
  have htake : fillPat = (s ++ ("fill=".data ++ t)).take 6 := by
    have h6 : fillPat.length = 6 := rfl
    have := List.prefix_iff_eq_take.mp hp
    rwa [h6] at this
  rw [List.take_append_eq_append_take] at htake
  by_cases hcase : 6 ≤ s.length
  · have h60 : 6 - s.length = 0 := by omega
    rw [h60] at htake
    simp only [List.take_zero, List.append_nil] at htake
    have hps : fillPat <+: s := htake ▸ List.take_prefix 6 s
    exact h ((hps.isInfix.trans hs.isInfix).trans (List.prefix_append pre _).isInfix)
  · push_neg at hcase
    have hs6 : s.take 6 = s := List.take_of_length_le (by omega)
    rw [hs6, List.take_append_of_le_length (by
      show 6 - s.length ≤ ("fill=".data).length
      have : ("fill=".data).length = 5 := rfl
      omega)] at htake
    obtain ⟨u, hu⟩ := hs
    apply h
    refine ⟨u, ("fill=".data).drop (6 - s.length), ?_⟩
    rw [htake, ← hu]
    simp [List.append_assoc, List.take_append_drop]

/-- No occurrence of `fill="` can start inside `a` when the text continues
with a character not occurring in `fill="` at all. -/
theorem noFalseStartChar (a : List Char) (x : Char) (hx : ¬ x ∈ fillPat)
    (h : ¬ fillPat <:+: a) (t : List Char) :
    ∀ s, s ≠ [] → s <:+ a → stripPre fillPat (s ++ (x :: t)) = none := by
  intro s hne hs
  apply stripPre_none_of_not_pre
  intro hp
  have hk1 : 0 < s.length := List.length_pos.mpr hne
  have htake : fillPat = (s ++ (x :: t)).take 6 := by
    have h6 : fillPat.length = 6 := rfl
    have := List.prefix_iff_eq_take.mp hp
    rwa [h6] at this
  rw [List.take_append_eq_append_take] at htake
  by_cases hcase : 6 ≤ s.length
  · have h60 : 6 - s.length = 0 := by omega
    rw [h60] at htake
    simp only [List.take_zero, List.append_nil] at htake
    have hps : fillPat <+: s := htake ▸ List.take_prefix 6 s
    exact h (hps.isInfix.trans hs.isInfix)
  · push_neg at hcase
    have hs6 : s.take 6 = s := List.take_of_length_le (by omega)
    obtain ⟨m, hm⟩ : ∃ m, 6 - s.length = m + 1 := ⟨5 - s.length, by omega⟩
    rw [hs6, hm, List.take_succ_cons] at htake
    apply hx
    rw [htake]
    exact List.mem_append.mpr (Or.inr (List.mem_cons_self x _))

/-- No occurrence of `fill="` can start inside a quoted value `v` when
`v ++ ['"']` contains none: the closing quote can only serve as the final
character of `fill="`, and that occurrence would lie inside `v ++ ['"']`. -/
theorem noFalseStartQuote (v : List Char)
    (h : ¬ fillPat <:+: (v ++ ['"'])) (t : List Char) :
    ∀ s, s ≠ [] → s <:+ v → stripPre fillPat (s ++ ('"' :: t)) = none := by
  intro s hne hs
  apply stripPre_none_of_not_pre
  intro hp
  have hk1 : 0 < s.length := List.length_pos.mpr hne
  have htake : fillPat = (s ++ ('"' :: t)).take 6 := by
    have h6 : fillPat.length = 6 := rfl
    have := List.prefix_iff_eq_take.mp hp
    rwa [h6] at this
  rw [List.take_append_eq_append_take] at htake
  by_cases hcase : 6 ≤ s.length
  · have h60 : 6 - s.length = 0 := by omega
    rw [h60] at htake
    simp only [List.take_zero, List.append_nil] at htake
    have hps : fillPat <+: s := htake ▸ List.take_prefix 6 s
    exact h ((hps.isInfix.trans hs.isInfix).trans (List.prefix_append v _).isInfix)
  · push_neg at hcase
    have hs6 : s.take 6 = s := List.take_of_length_le (by omega)
    obtain ⟨m, hm⟩ : ∃ m, 6 - s.length = m + 1 := ⟨5 - s.length, by omega⟩
    rw [hs6, hm, List.take_succ_cons] at htake
    by_cases hk5 : s.length = 5
    · have hm0 : m = 0 := by omega
      rw [hm0] at htake
      simp only [List.take_zero] at htake
      obtain ⟨u, hu⟩ := hs
      apply h
      refine ⟨u, [], ?_⟩
      rw [htake, ← hu]
      simp
    · have hget : fillPat[s.length]? = some '"' := by
        rw [htake, List.getElem?_append_right (Nat.le_refl s.length)]
        simp
      have hcases : s.length = 1 ∨ s.length = 2 ∨ s.length = 3 ∨ s.length = 4 := by
        omega
      rcases hcases with hk | hk | hk | hk <;>
        · rw [hk] at hget
          revert hget
          decide

/-- A lazy scan dies when the allowed region ends at a character the class
excludes, with the stop pattern failing throughout. -/
theorem lazyUpto_none_blocked (stop : List Char → Option (List Char))
    (allowed : Char → Bool) (a : List Char) :
    ∀ c t, (∀ s, s <:+ a → stop (s ++ (c :: t)) = none) →
      (∀ x ∈ a, allowed x = true) → allowed c = false →
      lazyUpto stop allowed (a ++ (c :: t)) = none := by
  induction a with
  | nil =>
    intro c t hstop _ hc
    have h0 : stop (c :: t) = none := by simpa using hstop [] List.nil_suffix
    simp [lazyUpto, h0, hc]
  | cons d ds ih =>
    intro c t hstop hall hc
    have h0 : stop (d :: (ds ++ (c :: t))) = none := by
      have := hstop (d :: ds) (List.suffix_refl _)
      simpa using this
    have hd : allowed d = true := hall d (by simp)
    rw [List.cons_append]
    simp only [lazyUpto, h0, hd, if_true]
    rw [ih c t (fun s hs => hstop s (hs.trans (List.suffix_cons d ds)))
      (fun x hx => hall x (by simp [hx])) hc]
    rfl

/-- The rendered form of a self-closing `Path` element carrying a `fill`
attribute, as the themed content pipeline presents it to the fill stage:
`<Path{pre}fill="{v}"{post}/>`. -/
def pathFillNode (pre v post : List Char) : List Char :=
  "<Path".data ++ pre ++ fillPat ++ v ++ '"' :: post ++ "/>".data

/-- What the fill stage rewrites `pathFillNode` to: the `fill` value is
replaced by the `fillColor` prop reference in place; `pre` and `post` (the
other attributes) are untouched, and the closing bracket gains a space
(the replacement text ends in ` />`). -/
def pathFillNodeOut (pre post : List Char) : List Char :=
  "<Path".data ++ pre ++ "fill=\x7bfillColor\x7d".data ++ post ++ " />".data

/-- The rendered form of a paired `Path` element carrying a `fill` attribute:
`<Path{pre}fill="{v}"{post}>{inner}</Path>` (the second fill regex of
part_001, lines 72–75, targets this shape). -/
def pathFillPairedNode (pre v post inner : List Char) : List Char :=
  "<Path".data ++ pre ++ fillPat ++ v ++ '"' :: post ++ '>' :: inner ++ "</Path>".data

/-- What the fill stage rewrites `pathFillPairedNode` to: the `fill` value is
replaced by the `fillColor` prop reference in place; `pre`, `post` and the
inner content are untouched. -/
def pathFillPairedOut (pre post inner : List Char) : List Char :=
  "<Path".data ++ pre ++ "fill=\x7bfillColor\x7d".data ++ post ++ '>' :: inner ++ "</Path>".data

/-- Inside the `$1` region of either fill regex, no occurrence of `fill="` can
begin strictly before the designated one. -/
theorem preWalk_none (pre : List Char) (hpre : ¬ fillPat <:+: (pre ++ "fill=".data))
    (X : List Char) :
    ∀ s, s ≠ [] → s <:+ pre → stripPre fillPat (s ++ (fillPat ++ X)) = none := by
  intro s hne hs
  have h := noFalseStart pre hpre ('"' :: X) s hne hs
  rw [show ("fill=".data ++ ('"' :: X) : List Char) = fillPat ++ X from by
    rw [fillPat_split]; simp] at h
  exact h

theorem mFill1Go_head_some (acc l r t : List Char)
    (h : mFill1Try acc l = some (r, t)) (hl : l ≠ []) :
    mFill1Go acc l = some (r, t) := by
  cases l with
  | nil => exact absurd rfl hl
  | cons c cs => simp [mFill1Go, h]

theorem mFill1_at_node (pre v post rest : List Char)
    (hpre : ¬ fillPat <:+: (pre ++ "fill=".data)) (hpreG : ∀ c ∈ pre, ¬ c = '>')
    (hv : ∀ c ∈ v, ¬ c = '"') (hpostG : ∀ c ∈ post, ¬ c = '>') :
    mFill1 (pathFillNode pre v post ++ rest) =
      some (pathFillNodeOut pre post, rest) := by
  have hW : pathFillNode pre v post ++ rest
      = "<Path".data ++ (pre ++ (fillPat ++ (v ++ '"' :: (post ++ ("/>".data ++ rest))))) := by
    simp [pathFillNode, List.append_assoc]
  rw [hW]
  simp only [mFill1, stripPre_of_append]
  rw [mFill1Go_seg pre _ []
    (fun s hne hs => mFill1Try_none_of_strip [] _ (preWalk_none pre hpre _ s hne hs))
    hpreG]
  rw [List.nil_append]
  rw [mFill1Go_head_some pre _ _ _ (mFill1Try_at pre v post rest hv hpostG)
    (by simp [fillPat_eq])]
  simp [pathFillNodeOut, List.append_assoc]

theorem fill1_scan_node (pre v post rest : List Char)
    (hpre : ¬ fillPat <:+: (pre ++ "fill=".data)) (hpreG : ∀ c ∈ pre, ¬ c = '>')
    (hv : ∀ c ∈ v, ¬ c = '"') (hpostG : ∀ c ∈ post, ¬ c = '>') :
    scanRepl mFill1 (pathFillNode pre v post ++ rest) =
      pathFillNodeOut pre post ++ scanRepl mFill1 rest :=
  scanRepl_head mFill1 mFill1_consumes _ _ _
    (mFill1_at_node pre v post rest hpre hpreG hv hpostG)

theorem mFill2Try_none_of_strip (acc l : List Char)
    (h : stripPre fillPat l = none) : mFill2Try acc l = none := by
  simp [mFill2Try, h]

theorem midFill_suffix_none (z : List Char) :
    ∀ s, s ≠ [] → s <:+ "fill=\x7bfillColor\x7d".data → mFill2Try [] (s ++ z) = none := by
  have hall : ∀ s ∈ ("fill=\x7bfillColor\x7d".data).tails,
      s = [] ∨ ¬ s.head? = some 'f' ∨ (6 ≤ s.length ∧ stripPre fillPat s = none) := by
    decide
  intro s hne hs
  rcases hall s ((List.mem_tails _ _).mpr hs) with h | h | h
  · exact absurd h hne
  · cases s with
    | nil => exact absurd rfl hne
    | cons c cs =>
      rw [List.cons_append]
      refine mFill2Try_none_head [] c (cs ++ z) ?_
      intro hc
      exact h (by simp [hc])
  · exact mFill2Try_none_of_strip [] _
      (stripPre_append_none fillPat s z (by simpa [fillPat_eq] using h.1) h.2)

theorem mFill2Go_step (acc : List Char) (c : Char) (cs : List Char)
    (h : mFill2Try acc (c :: cs) = none) (hc : ¬ c = '>') :
    mFill2Go acc (c :: cs) = mFill2Go (acc ++ [c]) cs := by
  simp [mFill2Go, h, hc]

theorem mFill2Go_tail3 (acc Y : List Char) :
    mFill2Go acc (' ' :: ('/' :: ('>' :: Y))) = none := by
  rw [mFill2Go_step acc ' ' _ (mFill2Try_none_head acc ' ' _ (by decide)) (by decide),
    mFill2Go_step _ '/' _ (mFill2Try_none_head _ '/' _ (by decide)) (by decide),
    mFill2Go_gt]

theorem fill2_scan_nodeOut (pre post Y : List Char)
    (hpre : ¬ fillPat <:+: (pre ++ "fill=".data)) (hpreG : ∀ c ∈ pre, ¬ c = '>')
    (hpreL : ∀ c ∈ pre, ¬ c = '<')
    (hpost : ¬ fillPat <:+: post) (hpostG : ∀ c ∈ post, ¬ c = '>')
    (hpostL : ∀ c ∈ post, ¬ c = '<') :
    scanRepl mFill2 (pathFillNodeOut pre post ++ Y) =
      pathFillNodeOut pre post ++ scanRepl mFill2 Y := by
  have hsplit : pathFillNodeOut pre post
      = '<' :: ("Path".data ++ (pre ++ ("fill=\x7bfillColor\x7d".data ++
          (post ++ " />".data)))) := by
    rw [pathFillNodeOut, show ("<Path".data : List Char) = '<' :: "Path".data from rfl]
    simp [List.append_assoc]
  apply scanRepl_append_of_none
  intro s hne hs
  rw [hsplit] at hs
  rcases List.suffix_cons_iff.mp hs with hEq | hTail
  · -- the suffix is the whole rewritten node: the scan for `fill="` inside the
    -- tag dies on the `{` of `fill={fillColor}` and at the closing `>`
    subst hEq
    rw [List.cons_append]
    have e0 : stripPre "<Path".data
        ('<' :: (("Path".data ++ (pre ++ ("fill=\x7bfillColor\x7d".data ++
          (post ++ " />".data)))) ++ Y))
        = some (pre ++ ("fill=\x7bfillColor\x7d".data ++ (post ++ (" />".data ++ Y)))) := by
      rw [show ('<' :: (("Path".data ++ (pre ++ ("fill=\x7bfillColor\x7d".data ++
            (post ++ " />".data)))) ++ Y) : List Char)
          = "<Path".data ++ (pre ++ ("fill=\x7bfillColor\x7d".data ++
            (post ++ (" />".data ++ Y)))) from by
        rw [show ("<Path".data : List Char) = '<' :: "Path".data from rfl]
        simp [List.append_assoc]]
      exact stripPre_of_append _ _
    simp only [mFill2, e0]
    rw [mFill2Go_seg pre _ []
      (fun s hne' hs' => mFill2Try_none_of_strip [] _ (by
        have h := noFalseStart pre hpre
          ("\x7bfillColor\x7d".data ++ (post ++ (" />".data ++ Y))) s hne' hs'
        rw [show ("fill=".data ++
              ("\x7bfillColor\x7d".data ++ (post ++ (" />".data ++ Y))) : List Char)
            = "fill=\x7bfillColor\x7d".data ++ (post ++ (" />".data ++ Y)) from by
          rw [← List.append_assoc]; rfl] at h
        exact h))
      hpreG]
    rw [mFill2Go_seg ("fill=\x7bfillColor\x7d".data) _ _
      (fun s hne' hs' => midFill_suffix_none _ s hne' hs')
      (by decide)]
    rw [mFill2Go_seg post _ _
      (fun s hne' hs' => mFill2Try_none_of_strip [] _ (by
        have h := noFalseStartChar post ' ' (by decide) hpost ("/>".data ++ Y) s hne' hs'
        rw [show (' ' :: ("/>".data ++ Y) : List Char) = " />".data ++ Y from rfl] at h
        exact h))
      hpostG]
    rw [show ((" />".data : List Char) ++ Y) = ' ' :: ('/' :: ('>' :: Y)) from by
      rw [show (" />".data : List Char) = [' ', '/', '>'] from rfl]; rfl]
    exact mFill2Go_tail3 _ Y
  · -- a proper suffix: its head character is not `<`, so `<Path` cannot match
    cases s with
    | nil => exact absurd rfl hne
    | cons c cs =>
      have hcmem : c ∈ ("Path".data ++ (pre ++ ("fill=\x7bfillColor\x7d".data ++
          (post ++ " />".data)))) := hTail.subset (by simp)
      have hc : ¬ c = '<' := by
        intro hc
        subst hc
        simp only [List.mem_append] at hcmem
        rcases hcmem with h | h | h | h | h
        · revert h; decide
        · exact hpreL '<' h rfl
        · revert h; decide
        · exact hpostL '<' h rfl
        · revert h; decide
      rw [List.cons_append]
      exact mFill2_none_head c _ hc

theorem mFill2Try_consumes (acc : List Char) :
    ∀ l r t, mFill2Try acc l = some (r, t) → t.length < l.length := by
  intro l r t h
  simp only [mFill2Try] at h
  cases h1 : stripPre fillPat l with
  | none => simp [h1] at h
  | some afterFill =>
    simp only [h1] at h
    cases h2 : expectChar '"' (afterFill.dropWhile (fun x => !(x = '"'))) with
    | none => simp [h2] at h
    | some afterV =>
      simp only [h2] at h
      cases h3 : expectChar '>' (afterV.dropWhile (fun x => !(x = '>'))) with
      | none => simp [h3] at h
      | some r1 =>
        simp only [h3] at h
        cases h4 : lazyUpto (stripPre "</Path>".data) (fun _ => true) r1 with
        | none => simp [h4] at h
        | some p =>
          obtain ⟨g3, rest⟩ := p
          simp only [h4, Option.some.injEq, Prod.mk.injEq] at h
          have ht : t = rest := h.2.symm ▸ rfl
          subst ht
          have hlt : t.length < r1.length := by
            refine lazyUpto_rest_lt (stripPre "</Path>".data) _ ?_ r1 g3 t h4
            intro x r' hx
            have := stripPre_some_len "</Path>".data x r' hx
            simp at this
            omega
          have l1 := stripPre_some_len fillPat l afterFill h1
          have l2 : afterV.length < (afterFill.dropWhile (fun x => !(x = '"'))).length := by
            rw [expectChar_eq_some '"' _ _ h2]
            simp
          have l3 : (afterFill.dropWhile (fun x => !(x = '"'))).length ≤ afterFill.length :=
            (List.dropWhile_suffix _).length_le
          have l4 : r1.length < (afterV.dropWhile (fun x => !(x = '>'))).length := by
            rw [expectChar_eq_some '>' _ _ h3]
            simp
          have l5 : (afterV.dropWhile (fun x => !(x = '>'))).length ≤ afterV.length :=
            (List.dropWhile_suffix _).length_le
          simp [fillPat_eq] at l1
          omega

theorem mFill2_consumes :
    ∀ l r t, mFill2 l = some (r, t) → t.length < l.length := by
  have go : ∀ l a r t, mFill2Go a l = some (r, t) → t.length < l.length := by
    intro l
    induction l with
    | nil => intro a r t h; simp [mFill2Go] at h
    | cons c cs ih =>
      intro a r t h
      simp only [mFill2Go] at h
      cases h1 : mFill2Try a (c :: cs) with
      | some p =>
        obtain ⟨r0, t0⟩ := p
        rw [h1] at h
        have he : r0 = r ∧ t0 = t := by
          constructor <;> [exact congrArg Prod.fst (Option.some.inj h);
            exact congrArg Prod.snd (Option.some.inj h)]
        exact he.2 ▸ mFill2Try_consumes a _ _ _ h1
      | none =>
        rw [h1] at h
        by_cases hc : c = '>'
        · simp [hc] at h
        · simp only [hc, if_false] at h
          have := ih (a ++ [c]) r t h
          simp only [List.length_cons]
          omega
  intro l r t h
  simp only [mFill2] at h
  cases h1 : stripPre "<Path".data l with
  | none => simp [h1] at h
  | some x =>
    rw [h1] at h
    have := go x [] r t h
    have := stripPre_some_len "<Path".data l x h1
    simp at this
    omega

theorem mFill1_slash_none (cs : List Char) : mFill1 ('<' :: ('/' :: cs)) = none := by
  have h : stripPre "<Path".data ('<' :: ('/' :: cs)) = none := by
    simp [stripPre, show ("<Path".data : List Char) = ['<', 'P', 'a', 't', 'h'] from rfl]
  simp [mFill1, h]

theorem mFill2_slash_none (cs : List Char) : mFill2 ('<' :: ('/' :: cs)) = none := by
  have h : stripPre "<Path".data ('<' :: ('/' :: cs)) = none := by
    simp [stripPre, show ("<Path".data : List Char) = ['<', 'P', 'a', 't', 'h'] from rfl]
  simp [mFill2, h]

/-- Inside the attribute text after the quoted fill value of a PAIRED node the
self-closing stop pattern `/>` never matches: the tag closes with a bare `>`
(`post` holds no `>` and does not end in `/`). -/
theorem stopSlashGt_paired (post : List Char) (hpostG : ∀ c ∈ post, ¬ c = '>')
    (hpostSlash : ¬ post.getLast? = some '/') (t : List Char) :
    ∀ s, s <:+ post → stripPre "/>".data (s ++ ('>' :: t)) = none := by
  intro s hs
  cases s with
  | nil =>
    simp [stripPre, show ("/>".data : List Char) = ['/', '>'] from rfl]
  | cons c cs =>
    by_cases hc : c = '/'
    · subst hc
      cases cs with
      | nil => exact absurd (suffix_singleton_getLast post '/' hs) hpostSlash
      | cons d ds =>
        have hd : ¬ d = '>' := hpostG d (hs.subset (by simp))
        simp [stripPre, show ("/>".data : List Char) = ['/', '>'] from rfl, hd]
    · simp [stripPre, show ("/>".data : List Char) = ['/', '>'] from rfl, hc]

/-- The first (self-closing) fill regex cannot match at the `fill="` of a
paired node: its lazy second group stops at the node's bare `>` without ever
seeing `/>`. -/
theorem mFill1Try_none_at_paired (acc v post Z : List Char)
    (hv : ∀ c ∈ v, ¬ c = '"') (hpostG : ∀ c ∈ post, ¬ c = '>')
    (hpostSlash : ¬ post.getLast? = some '/') :
    mFill1Try acc (fillPat ++ (v ++ '"' :: (post ++ ('>' :: Z)))) = none := by
  have h1 : stripPre fillPat (fillPat ++ (v ++ '"' :: (post ++ ('>' :: Z))))
      = some (v ++ '"' :: (post ++ ('>' :: Z))) := stripPre_of_append _ _
  have h2 : (v ++ '"' :: (post ++ ('>' :: Z))).dropWhile (fun x => !(x = '"'))
      = '"' :: (post ++ ('>' :: Z)) := by
    rw [dropWhile_append_all _ v _ (by intro c hc; simp [hv c hc])]
    simp [List.dropWhile_cons]
  have h3 : expectChar '"' ('"' :: (post ++ ('>' :: Z))) = some (post ++ ('>' :: Z)) := by
    simp [expectChar]
  have h4 : lazyUpto (stripPre "/>".data) (fun x => !(x = '>')) (post ++ ('>' :: Z))
      = none := by
    refine lazyUpto_none_blocked _ _ post '>' Z ?_ ?_ (by decide)
    · intro s hs
      exact stopSlashGt_paired post hpostG hpostSlash Z s hs
    · intro x hx
      simp [hpostG x hx]
  simp only [mFill1Try, h1, h2, h3, h4]

/-- The first (self-closing) fill regex does not match anywhere starting at a
paired `Path` node carrying a `fill` attribute. -/
theorem mFill1_none_paired (pre v post inner rest : List Char)
    (hpre : ¬ fillPat <:+: (pre ++ "fill=".data)) (hpreG : ∀ c ∈ pre, ¬ c = '>')
    (hv : ∀ c ∈ v, ¬ c = '"') (hvG : ∀ c ∈ v, ¬ c = '>')
    (hvq : ¬ fillPat <:+: (v ++ ['"']))
    (hpost : ¬ fillPat <:+: post) (hpostG : ∀ c ∈ post, ¬ c = '>')
    (hpostSlash : ¬ post.getLast? = some '/') :
    mFill1 (pathFillPairedNode pre v post inner ++ rest) = none := by
  have hW : pathFillPairedNode pre v post inner ++ rest
      = "<Path".data ++ (pre ++ (fillPat ++ (v ++ '"' ::
          (post ++ ('>' :: (inner ++ ("</Path>".data ++ rest))))))) := by
    simp [pathFillPairedNode, List.append_assoc]
  rw [hW]
  simp only [mFill1, stripPre_of_append]
  rw [mFill1Go_seg pre _ []
    (fun s hne hs => mFill1Try_none_of_strip [] _ (preWalk_none pre hpre _ s hne hs))
    hpreG]
  rw [List.nil_append]
  rw [show (fillPat ++ (v ++ '"' ::
        (post ++ ('>' :: (inner ++ ("</Path>".data ++ rest))))) : List Char)
      = 'f' :: ("ill=\"".data ++ (v ++ '"' ::
        (post ++ ('>' :: (inner ++ ("</Path>".data ++ rest)))))) from rfl]
  rw [mFill1Go_step pre 'f' _
    (by
      have h := mFill1Try_none_at_paired pre v post
        (inner ++ ("</Path>".data ++ rest)) hv hpostG hpostSlash
      rw [show (fillPat ++ (v ++ '"' ::
            (post ++ ('>' :: (inner ++ ("</Path>".data ++ rest))))) : List Char)
          = 'f' :: ("ill=\"".data ++ (v ++ '"' ::
            (post ++ ('>' :: (inner ++ ("</Path>".data ++ rest)))))) from rfl] at h
      exact h)
    (by decide)]
  rw [mFill1Go_seg ("ill=\"".data) _ _
    (by
      have hall : ∀ s ∈ ("ill=\"".data).tails, s = [] ∨ ¬ s.head? = some 'f' := by decide
      intro s hne hs
      cases s with
      | nil => exact absurd rfl hne
      | cons c cs =>
        rcases hall (c :: cs) ((List.mem_tails _ _).mpr hs) with h | h
        · simp at h
        · rw [List.cons_append]
          exact mFill1Try_none_head [] c _ (by intro hc; exact h (by simp [hc])))
    (by decide)]
  rw [mFill1Go_seg v _ _
    (fun s hne hs => mFill1Try_none_of_strip [] _
      (noFalseStartQuote v hvq
        (post ++ ('>' :: (inner ++ ("</Path>".data ++ rest)))) s hne hs))
    hvG]
  rw [mFill1Go_step _ '"' _ (mFill1Try_none_head _ '"' _ (by decide)) (by decide)]
  rw [mFill1Go_seg post _ _
    (fun s hne hs => mFill1Try_none_of_strip [] _
      (noFalseStartChar post '>' (by decide) hpost
        (inner ++ ("</Path>".data ++ rest)) s hne hs))
    hpostG]
  exact mFill1Go_gt _ _

/-- The first fill pass walks through a paired `Path` node untouched. -/
theorem fill1_scan_paired (pre v post inner rest : List Char)
    (hpre : ¬ fillPat <:+: (pre ++ "fill=".data)) (hpreG : ∀ c ∈ pre, ¬ c = '>')
    (hpreL : ∀ c ∈ pre, ¬ c = '<')
    (hv : ∀ c ∈ v, ¬ c = '"') (hvG : ∀ c ∈ v, ¬ c = '>') (hvL : ∀ c ∈ v, ¬ c = '<')
    (hvq : ¬ fillPat <:+: (v ++ ['"']))
    (hpost : ¬ fillPat <:+: post) (hpostG : ∀ c ∈ post, ¬ c = '>')
    (hpostL : ∀ c ∈ post, ¬ c = '<')
    (hpostSlash : ¬ post.getLast? = some '/')
    (hinL : ∀ c ∈ inner, ¬ c = '<') :
    scanRepl mFill1 (pathFillPairedNode pre v post inner ++ rest) =
      pathFillPairedNode pre v post inner ++ scanRepl mFill1 rest := by
  have hsplit : pathFillPairedNode pre v post inner
      = '<' :: (("Path".data ++ (pre ++ (fillPat ++
          (v ++ '"' :: (post ++ ('>' :: inner)))))) ++ ('<' :: "/Path>".data)) := by
    rw [pathFillPairedNode, show ("<Path".data : List Char) = '<' :: "Path".data from rfl,
      show ("</Path>".data : List Char) = '<' :: "/Path>".data from rfl]
    simp [List.append_assoc]
  apply scanRepl_append_of_none
  intro s hne hs
  rw [hsplit] at hs
  rcases List.suffix_cons_iff.mp hs with hEq | hTail
  · rw [show s ++ rest = pathFillPairedNode pre v post inner ++ rest from by
      rw [hEq, hsplit]]
    exact mFill1_none_paired pre v post inner rest hpre hpreG hv hvG hvq hpost hpostG
      hpostSlash
  · rcases suffix_append_split hTail with hs7 | ⟨w, hwne, hw, hreq⟩
    · have hall : ∀ x ∈ ('<' :: "/Path>".data).tails,
          x = [] ∨ x = '<' :: "/Path>".data ∨ ¬ x.head? = some '<' := by decide
      rcases hall s ((List.mem_tails _ _).mpr hs7) with h | h | h
      · exact absurd h hne
      · rw [h, show (('<' :: "/Path>".data : List Char) ++ rest)
            = '<' :: ('/' :: ("Path>".data ++ rest)) from rfl]
        exact mFill1_slash_none _
      · cases s with
        | nil => exact absurd rfl hne
        | cons c cs =>
          rw [List.cons_append]
          exact mFill1_none_head c _ (by intro hc; exact h (by simp [hc]))
    · obtain ⟨c, w', rfl⟩ : ∃ c w', w = c :: w' := by
        cases w with
        | nil => exact absurd rfl hwne
        | cons c w' => exact ⟨c, w', rfl⟩
      have hcA : c ∈ ("Path".data ++ (pre ++ (fillPat ++
          (v ++ '"' :: (post ++ ('>' :: inner)))))) := hw.subset (by simp)
      have hc : ¬ c = '<' := by
        intro hc
        subst hc
        simp only [List.mem_append, List.mem_cons] at hcA
        rcases hcA with h | h | h | h | h | h | h | h
        · revert h; decide
        · exact hpreL '<' h rfl
        · revert h; decide
        · exact hvL '<' h rfl
        · exact absurd h (by decide)
        · exact hpostL '<' h rfl
        · exact absurd h (by decide)
        · exact hinL '<' h rfl
      rw [hreq, List.cons_append, List.cons_append]
      exact mFill1_none_head c _ hc

/-- The second (paired) fill regex matches a paired `Path` node at its head,
rewriting exactly the fill value. -/
theorem mFill2Try_at_paired (acc v post inner rest : List Char)
    (hv : ∀ c ∈ v, ¬ c = '"') (hpostG : ∀ c ∈ post, ¬ c = '>')
    (hinL : ∀ c ∈ inner, ¬ c = '<') :
    mFill2Try acc
        (fillPat ++ (v ++ '"' :: (post ++ ('>' :: (inner ++ ("</Path>".data ++ rest)))))) =
      some ("<Path".data ++ acc ++ "fill=\x7bfillColor\x7d".data ++ post ++
        '>' :: inner ++ "</Path>".data, rest) := by
  have h1 := stripPre_of_append fillPat
    (v ++ '"' :: (post ++ ('>' :: (inner ++ ("</Path>".data ++ rest)))))
  have h2 : (v ++ '"' :: (post ++ ('>' :: (inner ++
        ("</Path>".data ++ rest))))).dropWhile (fun x => !(x = '"'))
      = '"' :: (post ++ ('>' :: (inner ++ ("</Path>".data ++ rest)))) := by
    rw [dropWhile_append_all _ v _ (by intro c hc; simp [hv c hc])]
    simp [List.dropWhile_cons]
  have h3 : expectChar '"' ('"' :: (post ++ ('>' :: (inner ++ ("</Path>".data ++ rest)))))
      = some (post ++ ('>' :: (inner ++ ("</Path>".data ++ rest)))) := by
    simp [expectChar]
  have h4 : (post ++ ('>' :: (inner ++ ("</Path>".data ++ rest)))).takeWhile
        (fun x => !(x = '>')) = post := by
    rw [takeWhile_append_all _ post _ (by intro c hc; simp [hpostG c hc])]
    simp [List.takeWhile_cons]
  have h5 : (post ++ ('>' :: (inner ++ ("</Path>".data ++ rest)))).dropWhile
        (fun x => !(x = '>'))
      = '>' :: (inner ++ ("</Path>".data ++ rest)) := by
    rw [dropWhile_append_all _ post _ (by intro c hc; simp [hpostG c hc])]
    simp [List.dropWhile_cons]
  have h6 : expectChar '>' ('>' :: (inner ++ ("</Path>".data ++ rest)))
      = some (inner ++ ("</Path>".data ++ rest)) := by
    simp [expectChar]
  have h7 : lazyUpto (stripPre "</Path>".data) (fun _ => true)
        (inner ++ ("</Path>".data ++ rest))
      = some (inner, rest) := by
    refine lazyUpto_through _ _ inner _ rest ?_ (fun _ _ => rfl) (stripPre_of_append _ _)
    intro s hne hs
    cases s with
    | nil => exact absurd rfl hne
    | cons c cs =>
      have hc : ¬ c = '<' := hinL c (hs.subset (by simp))
      rw [List.cons_append]
      simp [stripPre, show ("</Path>".data : List Char) = '<' :: "/Path>".data from rfl, hc]
  simp only [mFill2Try, h1, h2, h3, h4, h5, h6, h7]

theorem mFill2_at_paired (pre v post inner rest : List Char)
    (hpre : ¬ fillPat <:+: (pre ++ "fill=".data)) (hpreG : ∀ c ∈ pre, ¬ c = '>')
    (hv : ∀ c ∈ v, ¬ c = '"') (hpostG : ∀ c ∈ post, ¬ c = '>')
    (hinL : ∀ c ∈ inner, ¬ c = '<') :
    mFill2 (pathFillPairedNode pre v post inner ++ rest) =
      some (pathFillPairedOut pre post inner, rest) := by
  have hW : pathFillPairedNode pre v post inner ++ rest
      = "<Path".data ++ (pre ++ (fillPat ++ (v ++ '"' ::
          (post ++ ('>' :: (inner ++ ("</Path>".data ++ rest))))))) := by
    simp [pathFillPairedNode, List.append_assoc]
  rw [hW]
  simp only [mFill2, stripPre_of_append]
  rw [mFill2Go_seg pre _ []
    (fun s hne hs => mFill2Try_none_of_strip [] _ (preWalk_none pre hpre _ s hne hs))
    hpreG]
  rw [List.nil_append]
  rw [mFill2Go_head_some pre _ _ _
    (mFill2Try_at_paired pre v post inner rest hv hpostG hinL)
    (by simp [fillPat_eq])]
  rfl

theorem fill2_scan_paired (pre v post inner rest : List Char)
    (hpre : ¬ fillPat <:+: (pre ++ "fill=".data)) (hpreG : ∀ c ∈ pre, ¬ c = '>')
    (hv : ∀ c ∈ v, ¬ c = '"') (hpostG : ∀ c ∈ post, ¬ c = '>')
    (hinL : ∀ c ∈ inner, ¬ c = '<') :
    scanRepl mFill2 (pathFillPairedNode pre v post inner ++ rest) =
      pathFillPairedOut pre post inner ++ scanRepl mFill2 rest :=
  scanRepl_head mFill2 mFill2_consumes _ _ _
    (mFill2_at_paired pre v post inner rest hpre hpreG hv hpostG hinL)

theorem applyFill_id (s : List Char) (h : ¬ fillPat <:+: s) : applyFill s = s := by
  have h1 : scanRepl mFill1 s = s := by
    apply scanRepl_of_none
    intro i
    cases hx : mFill1 (s.drop i) with
    | none => rfl
    | some p =>
      exact absurd ((mFill1_some_hit _ p.1 p.2 (by simpa using hx)).trans
        (List.drop_suffix i s).isInfix) h
  have h2 : scanRepl mFill2 s = s := by
    apply scanRepl_of_none
    intro i
    cases hx : mFill2 (s.drop i) with
    | none => rfl
    | some p =>
      exact absurd ((mFill2_some_hit _ p.1 p.2 (by simpa using hx)).trans
        (List.drop_suffix i s).isInfix) h
  rw [applyFill, h1, h2]

/-! ### The self-closing formatting and empty-pair collapsing stage (claim C6) -/

theorem scanReplF_nil (f : List Char → Option (List Char × List Char)) (k : Nat) :
    scanReplF f k [] = [] := by
  cases k <;> rfl

theorem scanRepl_head_all (f : List Char → Option (List Char × List Char))
    (l r : List Char) (h : f l = some (r, [])) (hl : ¬ l = []) :
    scanRepl f l = r := by
  cases l with
  | nil => exact absurd rfl hl
  | cons c cs =>
    simp only [scanRepl, List.length_cons, scanReplF, h, scanReplF_nil, List.append_nil]

theorem alnum_not_lt {c : Char} (h : alnum c = true) : ¬ c = '<' := by
  intro hc
  subst hc
  exact absurd h (by decide)

theorem alnum_not_gt {c : Char} (h : alnum c = true) : ¬ c = '>' := by
  intro hc
  subst hc
  exact absurd h (by decide)

theorem mSelfCloseFmt_nil : mSelfCloseFmt [] = none := rfl

theorem mPairedEmpty_nil : mPairedEmpty [] = none := rfl

theorem mSelfCloseFmt_none_head (c : Char) (cs : List Char) (hc : ¬ c = '<') :
    mSelfCloseFmt (c :: cs) = none := by
  simp [mSelfCloseFmt, expectChar, hc]

theorem mPairedEmpty_none_head (c : Char) (cs : List Char) (hc : ¬ c = '<') :
    mPairedEmpty (c :: cs) = none := by
  simp [mPairedEmpty, expectChar, hc]

theorem mSelfCloseFmt_lt_nonalnum (c : Char) (cs : List Char) (hc : alnum c = false) :
    mSelfCloseFmt ('<' :: (c :: cs)) = none := by
  simp [mSelfCloseFmt, expectChar, List.takeWhile_cons, hc]

/-- The self-closing formatter matches `<T/>` (with an arbitrary continuation)
and inserts the space: `<T />`. -/
theorem mSelfCloseFmt_at_single (T : List Char) (hT : ¬ T = [])
    (hT2 : ∀ c ∈ T, alnum c = true) :
    mSelfCloseFmt ('<' :: (T ++ "/>".data)) = some ('<' :: T ++ " />".data, []) := by
  have h0 : expectChar '<' ('<' :: (T ++ ['/', '>'])) = some (T ++ ['/', '>']) := by
    simp [expectChar]
  have h1 : List.takeWhile alnum (T ++ ['/', '>']) = T := by
    rw [takeWhile_append_all alnum T _ hT2,
      show List.takeWhile alnum ['/', '>'] = [] from by decide, List.append_nil]
  have h2 : List.dropWhile alnum (T ++ ['/', '>']) = ['/', '>'] := by
    rw [dropWhile_append_all alnum T _ hT2]
    decide
  have h3 : List.takeWhile (fun c => !(c = '>')) ['/', '>'] = ['/'] := by decide
  have h4 : List.dropWhile (fun c => !(c = '>')) ['/', '>'] = ['>'] := by decide
  have h5 : expectChar '>' ['>'] = some [] := by decide
  have hTne : T.isEmpty = false := by
    cases T with
    | nil => exact absurd rfl hT
    | cons a as => rfl
  simp [mSelfCloseFmt, h0, h1, h2, h3, h4, h5, hTne]
  obtain ⟨a, as, rfl⟩ : ∃ a as, T = a :: as := by
    cases T with
    | nil => exact absurd rfl hT
    | cons a as => exact ⟨a, as, rfl⟩
  simpa using hT2 a (by simp)

/-- The self-closing formatter fails on a bare open tag `<T>…`: the `[^>]*`
group is empty and thus cannot end in `/`. -/
theorem mSelfCloseFmt_bare_gt (T : List Char) (hT2 : ∀ c ∈ T, alnum c = true)
    (Z : List Char) :
    mSelfCloseFmt ('<' :: (T ++ ('>' :: Z))) = none := by
  have h0 : expectChar '<' ('<' :: (T ++ ('>' :: Z))) = some (T ++ ('>' :: Z)) := by
    simp [expectChar]
  have h1 : (T ++ ('>' :: Z)).takeWhile alnum = T := by
    rw [takeWhile_append_all alnum T _ hT2]
    simp [List.takeWhile_cons, (by decide : alnum '>' = false)]
  have h2 : (T ++ ('>' :: Z)).dropWhile alnum = '>' :: Z := by
    rw [dropWhile_append_all alnum T _ hT2]
    simp [List.dropWhile_cons, (by decide : alnum '>' = false)]
  have h3 : ('>' :: Z).takeWhile (fun c => !(c = '>')) = [] := by
    simp [List.takeWhile_cons]
  have h4 : ('>' :: Z).dropWhile (fun c => !(c = '>')) = '>' :: Z := by
    simp [List.dropWhile_cons]
  have h5 : expectChar '>' ('>' :: Z) = some Z := by simp [expectChar]
  simp [mSelfCloseFmt, h0, h1, h2, h3, h4, h5]

/-- No suffix of a rendered self-closing element `T />` can trigger the
empty-pair collapser. -/
theorem mPairedEmpty_suffix_selfclosed (T : List Char) (hT2 : ∀ c ∈ T, alnum c = true) :
    ∀ s, s <:+ T ++ " />".data → mPairedEmpty s = none := by
  intro s hs
  rcases suffix_append_split hs with h | ⟨w, hwne, hw, heq⟩
  · have hall : ∀ x ∈ (" />".data : List Char).tails,
        x = [] ∨ ¬ x.head? = some '<' := by decide
    rcases hall s ((List.mem_tails _ _).mpr h) with he | hh
    · rw [he]
      exact mPairedEmpty_nil
    · cases s with
      | nil => exact mPairedEmpty_nil
      | cons c cs => exact mPairedEmpty_none_head c cs (fun hc => hh (by simp [hc]))
  · obtain ⟨c, w', rfl⟩ : ∃ c w', w = c :: w' := by
      cases w with
      | nil => exact absurd rfl hwne
      | cons c w' => exact ⟨c, w', rfl⟩
    have hc : alnum c = true := hT2 c (hw.subset (by simp))
    rw [heq, List.cons_append]
    exact mPairedEmpty_none_head _ _ (alnum_not_lt hc)

/-- The empty-pair collapser fails on the rendered `<T />`: the closing `</T>`
never appears, for any candidate tag-name group. -/
theorem mPairedGo_no_close (T : List Char) (hT2 : ∀ c ∈ T, alnum c = true) :
    ∀ k, mPairedGo T (" />".data) k = none := by
  intro k
  induction k with
  | zero => rfl
  | succ k ih =>
    have hD : ∀ c ∈ T.drop (k + 1), ¬ c = '>' :=
      fun c hc => alnum_not_gt (hT2 c (List.mem_of_mem_drop hc))
    have h1 : (T.drop (k + 1) ++ " />".data).takeWhile (fun c => !(c = '>'))
        = T.drop (k + 1) ++ [' ', '/'] := by
      rw [takeWhile_append_all _ _ _ (fun c hc => by simp [hD c hc])]
      rfl
    have h2 : (T.drop (k + 1) ++ " />".data).dropWhile (fun c => !(c = '>')) = ['>'] := by
      rw [dropWhile_append_all _ _ _ (fun c hc => by simp [hD c hc])]
      rfl
    have h3 : expectChar '>' ['>'] = some [] := by decide
    have h4 : lazyUpto (stripPre ('<' :: ('/' :: (T.take (k + 1) ++ ['>']))))
        (fun _ => true) [] = none := by
      simp [lazyUpto, stripPre]
    have htry : mPairedTry (T.take (k + 1)) (T.drop (k + 1) ++ " />".data) = none := by
      simp [mPairedTry, h1, h2, h3, h4]
    simp [mPairedGo, htry, ih]

theorem mPairedEmpty_selfclosed_none (T : List Char) (hT : ¬ T = [])
    (hT2 : ∀ c ∈ T, alnum c = true) :
    mPairedEmpty ('<' :: (T ++ " />".data)) = none := by
  have h0 : expectChar '<' ('<' :: (T ++ " />".data)) = some (T ++ " />".data) := by
    simp [expectChar]
  have h1 : (T ++ " />".data).takeWhile alnum = T := by
    rw [takeWhile_append_all alnum T _ hT2,
      show (" />".data : List Char).takeWhile alnum = [] from by decide, List.append_nil]
  have h2 : (T ++ " />".data).dropWhile alnum = " />".data := by
    rw [dropWhile_append_all alnum T _ hT2]
    decide
  have hTne : T.isEmpty = false := by
    cases T with
    | nil => exact absurd rfl hT
    | cons a as => rfl
  have hgo := mPairedGo_no_close T hT2 T.length
  simp [mPairedEmpty, h0, h1, h2, hTne, hgo]

/-- Stage result for a lone self-closing element: `<T/>` becomes `<T />`. -/
theorem selfCloseStage_self (T : List Char) (hT : ¬ T = [])
    (hT2 : ∀ c ∈ T, alnum c = true) :
    selfCloseStage ('<' :: T ++ "/>".data) = '<' :: T ++ " />".data := by
  have e1 : scanRepl mSelfCloseFmt ('<' :: T ++ "/>".data) = '<' :: T ++ " />".data := by
    rw [List.cons_append]
    rw [scanRepl_head_all _ _ _ (mSelfCloseFmt_at_single T hT hT2) (by simp)]
  rw [selfCloseStage, e1]
  apply scanRepl_of_none
  intro i
  cases i with
  | zero =>
    rw [List.drop_zero, List.cons_append]
    exact mPairedEmpty_selfclosed_none T hT hT2
  | succ j =>
    rw [List.cons_append, List.drop_succ_cons]
    exact mPairedEmpty_suffix_selfclosed T hT2 _ (List.drop_suffix j _)

/-- No suffix of the body of a lone paired element `T></T>` can trigger the
self-closing formatter. -/
theorem mSelfCloseFmt_suffix_paired (T : List Char) (hT2 : ∀ c ∈ T, alnum c = true) :
    ∀ s, s <:+ T ++ ('>' :: ('<' :: ('/' :: (T ++ ['>'])))) → mSelfCloseFmt s = none := by
  intro s hs
  rcases suffix_append_split hs with h | ⟨w, hwne, hw, heq⟩
  · rcases List.suffix_cons_iff.mp h with he | h2
    · rw [he]
      exact mSelfCloseFmt_none_head '>' _ (by decide)
    · rcases List.suffix_cons_iff.mp h2 with he | h3
      · rw [he]
        exact mSelfCloseFmt_lt_nonalnum '/' _ (by decide)
      · rcases List.suffix_cons_iff.mp h3 with he | h4
        · rw [he]
          exact mSelfCloseFmt_none_head '/' _ (by decide)
        · rcases suffix_append_split h4 with h5 | ⟨u, hune, hu, heq2⟩
          · rcases List.suffix_cons_iff.mp h5 with he | h6
            · rw [he]
              exact mSelfCloseFmt_none_head '>' _ (by decide)
            · rw [List.suffix_nil.mp h6]
              exact mSelfCloseFmt_nil
          · obtain ⟨c, u', rfl⟩ : ∃ c u', u = c :: u' := by
              cases u with
              | nil => exact absurd rfl hune
              | cons c u' => exact ⟨c, u', rfl⟩
            have hc := hT2 c (hu.subset (by simp))
            rw [heq2, List.cons_append]
            exact mSelfCloseFmt_none_head c _ (alnum_not_lt hc)
  · obtain ⟨c, w', rfl⟩ : ∃ c w', w = c :: w' := by
      cases w with
      | nil => exact absurd rfl hwne
      | cons c w' => exact ⟨c, w', rfl⟩
    have hc := hT2 c (hw.subset (by simp))
    rw [heq, List.cons_append]
    exact mSelfCloseFmt_none_head c _ (alnum_not_lt hc)

/-- The empty-pair collapser matches a lone `<T></T>` (the tag-name group
takes the full name, the backreference finds the closing tag immediately) and
collapses it to `<T />`. -/
theorem mPairedEmpty_at_paired (T : List Char) (hT : ¬ T = [])
    (hT2 : ∀ c ∈ T, alnum c = true) :
    mPairedEmpty ('<' :: (T ++ ('>' :: ('<' :: ('/' :: (T ++ ['>'])))))) =
      some ('<' :: T ++ " />".data, []) := by
  have h0 : expectChar '<' ('<' :: (T ++ ('>' :: ('<' :: ('/' :: (T ++ ['>']))))))
      = some (T ++ ('>' :: ('<' :: ('/' :: (T ++ ['>']))))) := by
    simp [expectChar]
  have h1 : (T ++ ('>' :: ('<' :: ('/' :: (T ++ ['>']))))).takeWhile alnum = T := by
    rw [takeWhile_append_all alnum T _ hT2]
    simp [List.takeWhile_cons, (by decide : alnum '>' = false)]
  have h2 : (T ++ ('>' :: ('<' :: ('/' :: (T ++ ['>']))))).dropWhile alnum
      = '>' :: ('<' :: ('/' :: (T ++ ['>']))) := by
    rw [dropWhile_append_all alnum T _ hT2]
    simp [List.dropWhile_cons, (by decide : alnum '>' = false)]
  have hTne : T.isEmpty = false := by
    cases T with
    | nil => exact absurd rfl hT
    | cons a as => rfl
  obtain ⟨k0, hk0⟩ : ∃ k0, T.length = k0 + 1 := by
    cases T with
    | nil => exact absurd rfl hT
    | cons a as => exact ⟨as.length, rfl⟩
  have ha : ('>' :: ('<' :: ('/' :: (T ++ ['>'])))).takeWhile (fun c => !(c = '>'))
      = [] := by
    simp [List.takeWhile_cons]
  have hb : ('>' :: ('<' :: ('/' :: (T ++ ['>'])))).dropWhile (fun c => !(c = '>'))
      = '>' :: ('<' :: ('/' :: (T ++ ['>']))) := by
    simp [List.dropWhile_cons]
  have hc : expectChar '>' ('>' :: ('<' :: ('/' :: (T ++ ['>']))))
      = some ('<' :: ('/' :: (T ++ ['>']))) := by
    simp [expectChar]
  have hstop : stripPre ('<' :: ('/' :: (T ++ ['>']))) ('<' :: ('/' :: (T ++ ['>'])))
      = some [] := by
    have h := stripPre_of_append ('<' :: ('/' :: (T ++ ['>']))) []
    simpa using h
  have hd : lazyUpto (stripPre ('<' :: ('/' :: (T ++ ['>'])))) (fun _ => true)
      ('<' :: ('/' :: (T ++ ['>']))) = some ([], []) := by
    simp [lazyUpto, hstop]
  have htry : mPairedTry (T.take (k0 + 1))
      (T.drop (k0 + 1) ++ ('>' :: ('<' :: ('/' :: (T ++ ['>'])))))
      = some ('<' :: T ++ " />".data, []) := by
    rw [← hk0, List.take_length, List.drop_length, List.nil_append]
    simp [mPairedTry, ha, hb, hc, hd, jsTrim]
  simp [mPairedEmpty, h0, h1, h2, hTne, hk0, mPairedGo, htry]
  obtain ⟨a, as, rfl⟩ : ∃ a as, T = a :: as := by
    cases T with
    | nil => exact absurd rfl hT
    | cons a as => exact ⟨a, as, rfl⟩
  simpa using hT2 a (by simp)

/-- Stage result for a lone empty paired element: `<T></T>` becomes `<T />`. -/
theorem selfCloseStage_pair (T : List Char) (hT : ¬ T = [])
    (hT2 : ∀ c ∈ T, alnum c = true) :
    selfCloseStage ('<' :: T ++ ('>' :: ('<' :: ('/' :: (T ++ ['>']))))) =
      '<' :: T ++ " />".data := by
  have e1 : scanRepl mSelfCloseFmt ('<' :: T ++ ('>' :: ('<' :: ('/' :: (T ++ ['>']))))) =
      '<' :: T ++ ('>' :: ('<' :: ('/' :: (T ++ ['>'])))) := by
    apply scanRepl_of_none
    intro i
    cases i with
    | zero =>
      rw [List.drop_zero, List.cons_append]
      exact mSelfCloseFmt_bare_gt T hT2 _
    | succ j =>
      rw [List.cons_append, List.drop_succ_cons]
      exact mSelfCloseFmt_suffix_paired T hT2 _ (List.drop_suffix j _)
  rw [selfCloseStage, e1, List.cons_append]
  rw [scanRepl_head_all _ _ _ (mPairedEmpty_at_paired T hT hT2) (by simp)]

/-! ### No-trigger no-op lemmas (claims C8 and C5 support) -/

theorem scanIdOfNoHit (f : List Char → Option (List Char × List Char))
    (pat : List Char) (hf : ∀ l r, f l = some r → pat <+: l)
    (s : List Char) (h : ¬ pat <:+: s) : scanRepl f s = s := by
  apply scanRepl_of_none
  intro i
  cases hx : f (s.drop i) with
  | none => rfl
  | some r => exact absurd (infix_of_pre_drop pat s i (hf _ _ hx)) h

theorem scanIdOfNoHitCI (f : List Char → Option (List Char × List Char))
    (pat : List Char) (hf : ∀ l r, f l = some r → pat <+: lcs l)
    (s : List Char) (h : ¬ pat <:+: lcs s) : scanRepl f s = s := by
  apply scanRepl_of_none
  intro i
  cases hx : f (s.drop i) with
  | none => rfl
  | some r =>
    have := hf _ _ hx
    have hdrop : lcs (s.drop i) = (lcs s).drop i := by
      simp [lcs, List.map_drop]
    rw [hdrop] at this
    exact absurd (infix_of_pre_drop pat (lcs s) i this) h

theorem mXmlV1_trigger (l : List Char) (r : List Char × List Char)
    (h : mXmlV1 l = some r) : "<?xml".data <+: l := by
  cases hx : stripPre "<?xml".data l with
  | none => simp [mXmlV1, hx] at h
  | some x => exact ⟨x, (stripPre_eq_some _ _ _ hx).symm⟩

theorem mCommentV1_trigger (l : List Char) (r : List Char × List Char)
    (h : mCommentV1 l = some r) : "<!--".data <+: l := by
  cases hx : stripPre "<!--".data l with
  | none => simp [mCommentV1, hx] at h
  | some x => exact ⟨x, (stripPre_eq_some _ _ _ hx).symm⟩

theorem mDoctypeV1_trigger (l : List Char) (r : List Char × List Char)
    (h : mDoctypeV1 l = some r) : "<!doctype".data <+: lcs l := by
  cases hx : stripPreCI "<!DOCTYPE".data l with
  | none => simp [mDoctypeV1, hx] at h
  | some x =>
    exact ⟨lcs x, by
      rw [stripPreCI_some_lcs _ _ _ hx]
      rfl⟩

theorem mStyleRm_trigger (l : List Char) (r : List Char × List Char)
    (h : mStyleRm l = some r) : "<style".data <+: lcs l := by
  cases hx : stripPreCI "<style".data l with
  | none => simp [mStyleRm, hx] at h
  | some x =>
    exact ⟨lcs x, by
      rw [stripPreCI_some_lcs _ _ _ hx]
      rfl⟩

theorem mScriptRm_trigger (l : List Char) (r : List Char × List Char)
    (h : mScriptRm l = some r) : "<script".data <+: lcs l := by
  cases hx : stripPreCI "<script".data l with
  | none => simp [mScriptRm, hx] at h
  | some x =>
    exact ⟨lcs x, by
      rw [stripPreCI_some_lcs _ _ _ hx]
      rfl⟩

theorem sanitizeV1_noop (s : List Char)
    (h1 : ¬ "<?xml".data <:+: s) (h2 : ¬ "<!--".data <:+: s)
    (h3 : ¬ "<!doctype".data <:+: lcs s) (h4 : ¬ "<style".data <:+: lcs s)
    (h5 : ¬ "<script".data <:+: lcs s) : sanitizeV1 s = s := by
  rw [sanitizeV1,
    scanIdOfNoHit mXmlV1 _ mXmlV1_trigger s h1,
    scanIdOfNoHit mCommentV1 _ mCommentV1_trigger s h2,
    scanIdOfNoHitCI mDoctypeV1 _ mDoctypeV1_trigger s h3,
    scanIdOfNoHitCI mStyleRm _ mStyleRm_trigger s h4,
    scanIdOfNoHitCI mScriptRm _ mScriptRm_trigger s h5]

theorem dimAt_trigger (kw l v : List Char) (h : dimAt kw l = some v) :
    lcs kw <+: lcs l := by
  cases hx : stripPreCI kw l with
  | none => simp [dimAt, hx] at h
  | some x => exact ⟨lcs x, (stripPreCI_some_lcs _ _ _ hx).symm⟩

theorem findDim_eq_none (kw : List Char) :
    ∀ attrs, ¬ lcs kw <:+: lcs attrs → findDim kw attrs = none := by
  intro attrs
  induction attrs with
  | nil => intro _; rfl
  | cons c cs ih =>
    intro h
    have hhead : dimAt kw (c :: cs) = none := by
      cases hx : dimAt kw (c :: cs) with
      | none => rfl
      | some v => exact absurd (dimAt_trigger kw _ v hx).isInfix h
    have htail : ¬ lcs kw <:+: lcs cs := by
      intro hx
      exact h (hx.trans (by
        rw [show lcs (c :: cs) = c.toLower :: lcs cs from rfl]
        exact (List.suffix_cons c.toLower (lcs cs)).isInfix))
    simp only [findDim, hhead]
    exact ih htail

/-! ### The claims -/

set_option maxRecDepth 100000

/-- Claim C1, counterexample to the claim as stated: the generic converter
returns the empty string for the empty input.  That result is a failure (it is
not generated source), yet it does not begin with the `// ` sentinel that the
themed flavor's failure strings carry — so no single fixed prefix separates
all failure results from all success results across the two flavors. -/
theorem C1_counterexample :
    svgToReactNativeGeneric (some "") = "" ∧
    svgToReactNativeThemed (some "") = "// Invalid SVG input" ∧
    ¬ ("// ".data <+: (svgToReactNativeGeneric (some "")).data) := by
  refine ⟨rfl, rfl, ?_⟩
  decide

/-- Claim C1, amended: both converters are total functions into strings (no
exception can escape).  Under the themed flavor every failure result begins
with the fixed prefix `// ` and every success result begins with the fixed
header of import lines, which does not begin with `// `.  Under the generic flavor the
only failure result is the empty string (returned for empty or absent input);
every other result is a success beginning with that flavor's import header. -/
theorem C1_sentinel_amended (o : Option String) :
    (svgToReactNativeGeneric o = "" ∨
      genericHeader <+: (svgToReactNativeGeneric o).data) ∧
    ("// ".data <+: (svgToReactNativeThemed o).data ∨
      themedPre <+: (svgToReactNativeThemed o).data) ∧
    ¬ ("// ".data <+: genericHeader) ∧ ¬ ("// ".data <+: themedPre) := by
  refine ⟨?_, ?_, by decide, by decide⟩
  · cases o with
    | none => exact Or.inl rfl
    | some s =>
      by_cases hs : s.data.isEmpty
      · exact Or.inl (by simp [svgToReactNativeGeneric, hs])
      · right
        simp only [svgToReactNativeGeneric, hs, Bool.false_eq_true, if_false]
        show genericHeader <+: genericHeader ++ genericBody s.data ++ genericFooter
        rw [List.append_assoc]
        exact List.prefix_append _ _
  · cases o with
    | none => exact Or.inl (by decide)
    | some s =>
      by_cases hs : s.data.isEmpty
      · left
        simp only [svgToReactNativeThemed, hs, if_true]
        decide
      · simp only [svgToReactNativeThemed, hs, Bool.false_eq_true, if_false]
        cases hm : svgExtract (sanitizeP s.data) with
        | none => exact Or.inl (by decide)
        | some p =>
          right
          show themedPre <+: themedTemplate (themedAttrs p.1) (themedContent p.2)
          rw [themedTemplate, List.append_assoc, List.append_assoc, List.append_assoc]
          exact List.prefix_append _ _

/-- Claim C2, counterexample to the claim as stated: under the *generic*
flavor, the exact input from the claim — a fragment with no root `svg` —
is not rejected: the result carries no sentinel prefix and is generated
source containing a tree rooted at a capitalized `<G>` component. -/
theorem C2_counterexample :
    ¬ ("// ".data <+:
      (svgToReactNativeGeneric (some "<g><path d=\"M0 0\"/></g>")).data) ∧
    "<G><Path d=\"M0 0\"/></G>".data <:+:
      (svgToReactNativeGeneric (some "<g><path d=\"M0 0\"/></g>")).data := by
  constructor <;> decide

/-- Claim C2, amended: only the themed flavor checks for a root `svg`
element; on the claim's input it returns the sentinel failure
`// No valid SVG content found`.  The generic flavor performs no root check
and converts the fragment as-is, producing a component whose body is the
capitalized fragment `<G><Path d="M0 0"/></G>`. -/
theorem C2_missing_root_amended :
    svgToReactNativeThemed (some "<g><path d=\"M0 0\"/></g>") =
      "// No valid SVG content found" ∧
    svgToReactNativeGeneric (some "<g><path d=\"M0 0\"/></g>") =
      ⟨genericHeader ++ "<G><Path d=\"M0 0\"/></G>".data ++ genericFooter⟩ := by
  constructor <;> decide

/-- Claim C3, counterexample to the claim as stated: the node
`<Path ufill="x"/>` carries no `fill` attribute (there is no ` fill=` in it —
`ufill` is a different name), so the claim requires it to be emitted completely
unchanged; but the fill stage (part_001 lines 67–75) keys on the bare text
`fill="`, which also matches the tail of `ufill="`, and rewrites the node to
`<Path ufill={fillColor} />`. -/
theorem C3_counterexample :
    ¬ " fill=".data <:+: "<Path ufill=\"x\"/>".data ∧
    applyFill "<Path ufill=\"x\"/>".data = "<Path ufill=\x7bfillColor\x7d />".data ∧
    applyFill "<Path ufill=\"x\"/>".data ≠ "<Path ufill=\"x\"/>".data := by
  refine ⟨by decide, by decide, by decide⟩

/-- Claim C3, amended: the themed fill stage (part_001 lines 67–75) is keyed to
the first textual occurrence of `fill="` inside a `Path` tag, not to a `fill`
attribute proper.  (1) On content with no `fill="` occurrence at all the stage
is the identity — no fill is ever introduced.  (2) On a self-closing `Path`
node `<Path{pre}fill="{v}"{post}/>` whose `pre` part contains no earlier
`fill="` occurrence (even one ending in the designated `fill=`; `pre` may
otherwise contain anything bracket-free, including names such as `ufill`,
`fillRule` or `transform`), exactly the `fill="…"` text is replaced by
`fill={fillColor}`; `pre` and `post` are preserved and the closing bracket
gains the space carried by the replacement text.  (3) The same holds for a
paired node `<Path{pre}fill="{v}"{post}>{inner}</Path>`, whose inner content
is also preserved. -/
theorem C3_fill_amended (s pre v post inner rest : List Char) :
    (¬ fillPat <:+: s → applyFill s = s) ∧
    ((¬ fillPat <:+: (pre ++ "fill=".data)) → (∀ c ∈ pre, ¬ c = '>') →
     (∀ c ∈ pre, ¬ c = '<') → (∀ c ∈ v, ¬ c = '"') →
     (¬ fillPat <:+: post) → (∀ c ∈ post, ¬ c = '>') → (∀ c ∈ post, ¬ c = '<') →
      applyFill (pathFillNode pre v post ++ rest) =
        pathFillNodeOut pre post ++ applyFill rest) ∧
    ((¬ fillPat <:+: (pre ++ "fill=".data)) → (∀ c ∈ pre, ¬ c = '>') →
     (∀ c ∈ pre, ¬ c = '<') →
     (∀ c ∈ v, ¬ c = '"') → (∀ c ∈ v, ¬ c = '>') → (∀ c ∈ v, ¬ c = '<') →
     (¬ fillPat <:+: (v ++ ['"'])) →
     (¬ fillPat <:+: post) → (∀ c ∈ post, ¬ c = '>') → (∀ c ∈ post, ¬ c = '<') →
     (¬ post.getLast? = some '/') → (∀ c ∈ inner, ¬ c = '<') →
      applyFill (pathFillPairedNode pre v post inner ++ rest) =
        pathFillPairedOut pre post inner ++ applyFill rest) := by
  refine ⟨applyFill_id s, ?_, ?_⟩
  · intro hpre hpreG hpreL hv hpost hpostG hpostL
    rw [applyFill, fill1_scan_node pre v post rest hpre hpreG hv hpostG,
      fill2_scan_nodeOut pre post _ hpre hpreG hpreL hpost hpostG hpostL]
    rfl
  · intro hpre hpreG hpreL hv hvG hvL hvq hpost hpostG hpostL hpostSlash hinL
    rw [applyFill,
      fill1_scan_paired pre v post inner rest hpre hpreG hpreL hv hvG hvL hvq hpost
        hpostG hpostL hpostSlash hinL,
      fill2_scan_paired pre v post inner (scanRepl mFill1 rest) hpre hpreG hv hpostG hinL]
    rfl

/-- Witness for C3 at concrete inputs: a fill-free `Rect` is untouched; the
self-closing rewrite instantiated at the `ufill` node of the counterexample;
and the paired rewrite at `<Path fillRule="evenodd" fill="red" d="M0 0">abc</Path>`. -/
theorem C3_fill_amended_witness :
    (¬ fillPat <:+: "<Rect x=\"1\"/>".data ∧
      applyFill "<Rect x=\"1\"/>".data = "<Rect x=\"1\"/>".data) ∧
    applyFill (pathFillNode " u".data "x".data [] ++ []) =
      pathFillNodeOut " u".data [] ++ applyFill [] ∧
    applyFill (pathFillPairedNode " fillRule=\"evenodd\" ".data "red".data
        " d=\"M0 0\"".data "abc".data ++ []) =
      pathFillPairedOut " fillRule=\"evenodd\" ".data " d=\"M0 0\"".data "abc".data ++
        applyFill [] := by
  refine ⟨⟨by decide, ?_⟩, ?_, ?_⟩
  · exact (C3_fill_amended "<Rect x=\"1\"/>".data " u".data "x".data [] "abc".data []).1
      (by decide)
  · exact (C3_fill_amended "<Rect x=\"1\"/>".data " u".data "x".data [] "abc".data []).2.1
      (by decide) (by decide) (by decide) (by decide) (by decide) (by decide) (by decide)
  · exact (C3_fill_amended "<Rect x=\"1\"/>".data " fillRule=\"evenodd\" ".data
      "red".data " d=\"M0 0\"".data "abc".data []).2.2
      (by decide) (by decide) (by decide) (by decide) (by decide) (by decide)
      (by decide) (by decide) (by decide) (by decide) (by decide) (by decide)

/-- Claim C4: the themed emitter does not derive the height from the input's
dimensions.  At the failing input `<svg width="10" height="20">…`, where the
claim requires `height = width * 20 / 10`, the emitted component contains the
hard-coded line `const height = (width * 1024) / 1024` (ratio 1 regardless of
the resolved dimensions) — contradicting the source's own comment "Maintain
the aspect ratio based on the original SVG size" (part_001 line 98). -/
theorem C4_height_hardcoded :
    "const height = (width * 1024) / 1024".data <:+:
      (svgToReactNativeThemed
        (some "<svg width=\"10\" height=\"20\"><path d=\"M0 0\"/></svg>")).data ∧
    ¬ ("(width * 20) / 10".data <:+:
      (svgToReactNativeThemed
        (some "<svg width=\"10\" height=\"20\"><path d=\"M0 0\"/></svg>")).data) := by
  constructor <;> decide

/-- Claim C5, counterexample to the claim as stated: on
`<svg stroke-width="7"></svg>` the `width` attribute is absent, so the claim
requires the default `"100"` and viewBox `"0 0 100 100"`; but the extraction
regex `/width\s*=\s*["']?([^"'\s>]+)/i` matches the `width=` substring inside
`stroke-width`, resolving width `"7"` and viewBox `"0 0 7 100"`. -/
theorem C5_counterexample :
    v2Sizing "<svg stroke-width=\"7\"></svg>" = some ("7", "100", "0 0 7 100") ∧
    v2Sizing "<svg stroke-width=\"7\"></svg>" ≠ some ("100", "100", "0 0 100 100") := by
  constructor <;> decide

/-- Claim C5, amended: width/height are resolved from the first occurrence of
a `width=`/`height=` pattern anywhere in the root tag's attribute text (which
may sit inside a longer hyphenated name such as `stroke-width`), and default
to `"100"` only when no such occurrence exists at all; an explicit `viewBox`
always wins over the synthesized one, and `<svg></svg>` resolves to
`"0 0 100 100"`. -/
theorem C5_sizing_amended (attrs : List Char) :
    (¬ "width".data <:+: lcs attrs → v2WidthValue attrs = "100".data) ∧
    (¬ "height".data <:+: lcs attrs → v2HeightValue attrs = "100".data) ∧
    v2Sizing "<svg></svg>" = some ("100", "100", "0 0 100 100") ∧
    v2Sizing "<svg width=\"24\" height=\"24\" viewBox=\"0 0 48 48\"></svg>" =
      some ("24", "24", "0 0 48 48") ∧
    v2Sizing "<svg viewBox=\"0 0 48 48\"></svg>" =
      some ("100", "100", "0 0 48 48") := by
  refine ⟨?_, ?_, by decide, by decide, by decide⟩
  · intro h
    rw [v2WidthValue, findDim_eq_none _ _ (by
      rw [show lcs "width".data = "width".data from rfl]; exact h)]
    rfl
  · intro h
    rw [v2HeightValue, findDim_eq_none _ _ (by
      rw [show lcs "height".data = "height".data from rfl]; exact h)]
    rfl

/-- Witness for C5 at a concrete attribute text containing neither a `width=`
nor a `height=` occurrence. -/
theorem C5_sizing_amended_witness :
    (¬ "width".data <:+: lcs " stroke=\"none\"".data ∧
      v2WidthValue " stroke=\"none\"".data = "100".data) ∧
    (¬ "height".data <:+: lcs " stroke=\"none\"".data ∧
      v2HeightValue " stroke=\"none\"".data = "100".data) := by
  constructor
  · exact ⟨by decide, (C5_sizing_amended " stroke=\"none\"".data).1 (by decide)⟩
  · exact ⟨by decide, (C5_sizing_amended " stroke=\"none\"".data).2.1 (by decide)⟩

/-- Claim C6, counterexample to the claim as stated: the generic flavor's
self-closing step (App.jsx variant 1 lines 37–41) returns every match
unchanged, so `<rect/>` and `<rect></rect>` convert to different outputs. -/
theorem C6_counterexample :
    svgToReactNativeGeneric (some "<svg><rect/></svg>") ≠
      svgToReactNativeGeneric (some "<svg><rect></rect></svg>") := by
  decide

/-- Claim C6, amended: the themed flavor's collapse of empty paired elements
is one left-to-right pass of the paired-element pattern, so an empty paired
element is rendered self-closing exactly when that pass's match begins at the
element itself.  (1) For every alphanumeric tag name `T`, a lone `<T/>` and a
lone `<T></T>` both come out of the formatting-and-collapsing stage as the
identical `<T />`.  (2) End to end, `<svg><rect/></svg>` and
`<svg><rect></rect></svg>` produce identical themed output.  But an empty
paired element covered by a match that began earlier stays paired: (3) one
nested inside a paired container (`<g>…</g>`), and (4) one immediately
preceded by a self-closing element, whose match swallows the pair as inner
content (`<rect/><rect></rect>` renders as `<Rect /><Rect></Rect>`).
(5) The generic flavor leaves both source forms unchanged apart from tag
capitalization, so it never collapses a paired empty element. -/
theorem C6_selfclosing_amended (T : List Char) (hT : ¬ T = [])
    (hT2 : ∀ c ∈ T, alnum c = true) :
    (selfCloseStage ('<' :: T ++ "/>".data) = '<' :: T ++ " />".data ∧
     selfCloseStage ('<' :: T ++ ('>' :: ('<' :: ('/' :: (T ++ ['>']))))) =
       '<' :: T ++ " />".data) ∧
    svgToReactNativeThemed (some "<svg><rect/></svg>") =
      svgToReactNativeThemed (some "<svg><rect></rect></svg>") ∧
    "<Rect></Rect>".data <:+:
      (svgToReactNativeThemed (some "<svg><g><rect></rect></g></svg>")).data ∧
    "<Rect /><Rect></Rect>".data <:+:
      (svgToReactNativeThemed (some "<svg><rect/><rect></rect></svg>")).data ∧
    ("<Rect/>".data <:+: (svgToReactNativeGeneric (some "<svg><rect/></svg>")).data ∧
     "<Rect></Rect>".data <:+:
       (svgToReactNativeGeneric (some "<svg><rect></rect></svg>")).data) := by
  exact ⟨⟨selfCloseStage_self T hT hT2, selfCloseStage_pair T hT hT2⟩,
    by decide, by decide, by decide, by decide, by decide⟩

/-- Witness for C6 at the concrete tag `Rect`: both `<Rect/>` and
`<Rect></Rect>` come out of the stage as `<Rect />`. -/
theorem C6_selfclosing_amended_witness :
    (¬ ("Rect".data : List Char) = [] ∧ ∀ c ∈ ("Rect".data : List Char), alnum c = true) ∧
    selfCloseStage ('<' :: "Rect".data ++ "/>".data) =
      '<' :: "Rect".data ++ " />".data ∧
    selfCloseStage ('<' :: "Rect".data ++ ('>' :: ('<' :: ('/' :: ("Rect".data ++ ['>'])))))
      = '<' :: "Rect".data ++ " />".data := by
  refine ⟨⟨by decide, by decide⟩, ?_, ?_⟩
  · exact (C6_selfclosing_amended "Rect".data (by decide) (by decide)).1.1
  · exact (C6_selfclosing_amended "Rect".data (by decide) (by decide)).1.2

/-- Claim C7, counterexample to the claim as stated: a name with two hyphens
does not end hyphen-free.  End to end under the themed flavor,
`my-data-attr="v"` comes out as `my-dataAttr="v"` (one hyphen left), not the
claimed `myDataAttr="v"`. -/
theorem C7_counterexample :
    "my-dataAttr=\"v\"".data <:+:
      (svgToReactNativeThemed (some "<svg><path my-data-attr=\"v\"/></svg>")).data ∧
    ¬ ("myDataAttr".data <:+:
      (svgToReactNativeThemed (some "<svg><path my-data-attr=\"v\"/></svg>")).data) := by
  constructor <;> decide

/-- Claim C7, amended: the camel-casing regex is a single left-to-right pass
of the pattern segment-hyphen-segment-`=`: exactly the hyphen pair
immediately before the `=` is collapsed, with the second segment's first
character uppercased (`stroke-width=` → `strokeWidth=`); in a name with two
hyphens the earlier hyphen survives (`a-b-c=` → `a-bC=`). -/
theorem C7_camel_amended (a b c r1 r2 : List Char)
    (ha : a ≠ []) (ha2 : ∀ x ∈ a, alnum x = true)
    (hb : b ≠ []) (hb2 : ∀ x ∈ b, alnum x = true)
    (hc : c ≠ []) (hc2 : ∀ x ∈ c, alnum x = true) :
    scanRepl mCamel (a ++ '-' :: (b ++ '=' :: r1)) =
      a ++ upperFirst b ++ '=' :: scanRepl mCamel r1 ∧
    scanRepl mCamel (a ++ '-' :: (b ++ '-' :: (c ++ '=' :: r2))) =
      a ++ '-' :: (b ++ upperFirst c ++ '=' :: scanRepl mCamel r2) :=
  ⟨camel_single a b r1 ha ha2 hb hb2,
   camel_double b c r2 hb hb2 hc hc2 a ha2⟩

/-- Witness for C7 at concrete segments. -/
theorem C7_camel_amended_witness :
    scanRepl mCamel ("stroke".data ++ '-' :: ("width".data ++ '=' :: "\"2\"".data)) =
      "stroke".data ++ upperFirst "width".data ++ '=' :: scanRepl mCamel "\"2\"".data ∧
    scanRepl mCamel ("stroke".data ++ '-' :: ("width".data ++ '-' :: ("x".data ++ '=' :: []))) =
      "stroke".data ++ '-' :: ("width".data ++ upperFirst "x".data ++ '=' :: scanRepl mCamel []) :=
  C7_camel_amended "stroke".data "width".data "x".data "\"2\"".data []
    (by decide) (by decide) (by decide) (by decide) (by decide) (by decide)

/-- Claim C8, counterexample to the claim as stated: the regex-based
sanitizer does alter content inside attribute values that resembles its
patterns — a comment-shaped attribute value is deleted. -/
theorem C8_counterexample :
    sanitizeV1 "<svg note=\"<!-- hi -->\"><path d=\"M0 0\"/></svg>".data =
      "<svg note=\"\"><path d=\"M0 0\"/></svg>".data := by
  decide

/-- Claim C8, amended: the sanitizer never fails and is the identity on any
input containing none of the trigger tokens `<?xml`, `<!--`, `<!DOCTYPE`,
`<style`, `<script` (the latter three case-insensitively); it removes XML
declarations, DOCTYPEs, comments and whole style/script blocks wherever they
occur textually — including inside attribute values. -/
theorem C8_sanitize_amended (s : List Char) :
    ((¬ "<?xml".data <:+: s) → (¬ "<!--".data <:+: s) →
     (¬ "<!doctype".data <:+: lcs s) → (¬ "<style".data <:+: lcs s) →
     (¬ "<script".data <:+: lcs s) → sanitizeV1 s = s) ∧
    sanitizeV1 ("<?xml version=\"1.0\"?><!DOCTYPE svg><!-- c --><svg><style>.a\x7b\x7d</style><script>x</script><path/></svg>".data)
      = "<svg><path/></svg>".data := by
  constructor
  · intro h1 h2 h3 h4 h5
    exact sanitizeV1_noop s h1 h2 h3 h4 h5
  · decide

/-- Witness for C8 at a concrete trigger-free input. -/
theorem C8_sanitize_amended_witness :
    sanitizeV1 "<svg><path d=\"M0 0\"/></svg>".data =
      "<svg><path d=\"M0 0\"/></svg>".data :=
  (C8_sanitize_amended "<svg><path d=\"M0 0\"/></svg>".data).1
    (by decide) (by decide) (by decide) (by decide) (by decide)

/-- Claim C9, confirmed: for the falsy inputs (absent input, i.e. `null` /
`undefined`, modelled as `none`, and the empty string) the generic converter
returns the empty string — which carries neither the sentinel prefix nor the
generated-source header — while the themed converter returns the sentinel
`// Invalid SVG input`. -/
theorem C9_falsy_inputs :
    svgToReactNativeGeneric none = "" ∧
    svgToReactNativeGeneric (some "") = "" ∧
    svgToReactNativeThemed none = "// Invalid SVG input" ∧
    svgToReactNativeThemed (some "") = "// Invalid SVG input" ∧
    ¬ ("// ".data <+: (svgToReactNativeGeneric (some "")).data) ∧
    ¬ (genericHeader <+: (svgToReactNativeGeneric (some "")).data) := by
  refine ⟨rfl, rfl, rfl, rfl, by decide, by decide⟩

/-- Claim C10, confirmed: every successful themed conversion (one whose
result does not carry the `// ` failure prefix) emits ` fill={fillColor}>` at
the end of the root `Svg` opening tag, regardless of whether the source root
carried any `fill` attribute (part_001 line 100 interpolates it into the
template unconditionally). -/
theorem C10_root_fill (o : Option String)
    (h : ¬ ("// ".data <+: (svgToReactNativeThemed o).data)) :
    " fill=\x7bfillColor\x7d>".data <:+: (svgToReactNativeThemed o).data := by
  cases o with
  | none => exact absurd (by decide) h
  | some s =>
    by_cases hs : s.data.isEmpty
    · refine absurd ?_ h
      simp only [svgToReactNativeThemed, hs, if_true]
      decide
    · simp only [svgToReactNativeThemed, hs, Bool.false_eq_true, if_false] at h ⊢
      cases hm : svgExtract (sanitizeP s.data) with
      | none =>
        rw [hm] at h
        exact absurd (by decide) h
      | some p =>
        obtain ⟨attrs, content⟩ := p
        show " fill=\x7bfillColor\x7d>".data <:+:
          themedTemplate (themedAttrs attrs) (themedContent content)
        rw [themedTemplate]
        have h1 : (" fill=\x7bfillColor\x7d>".data : List Char) <+: themedMid := by decide
        have h2 : themedMid <:+:
            (themedPre ++ themedAttrs attrs ++ themedMid ++
              themedContent content ++ themedPost) :=
          ⟨themedPre ++ themedAttrs attrs, themedContent content ++ themedPost, by
            simp [List.append_assoc]⟩
        exact h1.isInfix.trans h2

/-- Witness for C10 at a concrete fill-free input. -/
theorem C10_root_fill_witness :
    ¬ ("// ".data <+:
      (svgToReactNativeThemed (some "<svg><path d=\"M0 0\"/></svg>")).data) ∧
    " fill=\x7bfillColor\x7d>".data <:+:
      (svgToReactNativeThemed (some "<svg><path d=\"M0 0\"/></svg>")).data :=
  ⟨by decide, C10_root_fill (some "<svg><path d=\"M0 0\"/></svg>") (by decide)⟩

end Svg2RN
